import Mathlib

/-
Verification of the core evaluator of the `seed` scripting language
against its natural-language specification.

The development contains three shallow embeddings, matching the three
revisions of the code that coexist in the repository snapshot:

* `SeedVal`: the value-level functions of the current revision
  (`src/eval/mod.rs`, `src/builtins/fns.rs`,
  `src/builtins/type_functions.rs`).  Reference-counted containers are
  modelled as inline data tagged with a handle identifier `id : Nat`;
  pointer equality (`value::ref_eq`) is identifier equality, and a fresh
  allocation is modelled by an explicitly supplied fresh identifier.

* `SeedScope`: the scope stack of `src/eval/scope.rs` (an older revision
  whose values live behind `Arc<Mutex<_>>` cells); cells are modelled by
  an explicit heap of addresses.

* `SeedVm`: a store-passing interpreter for the statement/expression
  subset of `src/eval/mod.rs` and `src/eval/bind.rs` exercised by the
  claims about evaluation order, top-level escapes and list
  destructuring.  Recursion through the heap (function calls, loops) is
  bounded by an explicit fuel parameter; all theorems are stated
  conditionally on the evaluator's result, never on the fuel branch.
-/

namespace SeedVal

/-- Binary operators, from `ast.rs` (`BinaryOp`), in the revision consumed
by `eval/mod.rs::apply_binary_operation`. -/
inductive BinaryOp where
  | sum
  | sub
  | mul
  | div
  | mod
  | and
  | or
  | eq
  | ne
  | gt
  | gte
  | lt
  | lte
deriving DecidableEq, Repr

/-- Runtime values, from `value.rs` in the revision used by
`eval/mod.rs`: `Null`, `Bool`, `Int` (i64), `Str` (byte vector),
`List(Arc<Mutex<Vec<SourcedValue>>>)`,
`Object(Arc<Mutex<BTreeMap<String, SourcedValue>>>)`,
`BuiltinFunc{name, f}` and `Func(Arc<Mutex<Func>>)`.  The shared handles
are modelled as inline payloads tagged with a handle identifier; the
identifier stands for the `Arc` pointer, so `value::ref_eq` is identifier
equality.  Container elements are `SourcedValue`s, i.e. pairs of a value
and an optional source value. -/
inductive Value where
  | null
  | bool (b : Bool)
  | int (n : Int)
  | str (s : List Nat)
  | list (id : Nat) (items : List (Value × Option Value))
  | object (id : Nat) (props : List (String × Value × Option Value))
  | builtinFunc (name : String)
  | func (id : Nat) (name : Option String)

/-- `SourcedValue` from `value.rs`: a value together with the optional
receiver it was obtained from. -/
abbrev SourcedValue := Value × Option Value

/-- The i64 minimum, `-2^63`. -/
def i64Min : Int := -(2 ^ 63)

/-- The i64 maximum, `2^63 - 1`. -/
def i64Max : Int := 2 ^ 63 - 1

/-- Whether an integer is representable as an i64. -/
def InI64 (n : Int) : Prop := i64Min ≤ n ∧ n ≤ i64Max

instance : DecidablePred InI64 := fun n => by
  unfold InI64; infer_instance

/-- Rust's `i64::checked_add`: `some` of the sum when it is representable,
`none` on overflow. -/
def checkedAdd (a b : Int) : Option Int :=
  if i64Min ≤ a + b ∧ a + b ≤ i64Max then some (a + b) else none

/-- Rust's `i64::checked_sub`. -/
def checkedSub (a b : Int) : Option Int :=
  if i64Min ≤ a - b ∧ a - b ≤ i64Max then some (a - b) else none

/-- Rust's `i64::checked_mul`. -/
def checkedMul (a b : Int) : Option Int :=
  if i64Min ≤ a * b ∧ a * b ≤ i64Max then some (a * b) else none

/-- Rust's `i64::checked_div`: `none` when the divisor is zero or the
division overflows (`i64::MIN / -1`); otherwise the quotient truncated
toward zero (`Int.tdiv`). -/
def checkedDiv (a b : Int) : Option Int :=
  if b = 0 then none
  else if a = i64Min ∧ b = -1 then none
  else some (Int.tdiv a b)

/-- Errors from `eval/error.rs`, restricted to the variants reachable from
the functions embedded in this namespace.  `AtLoc` wraps an error with a
source location; the `…Failed` variants are the snafu context wrappers. -/
inductive Error where
  | InvalidOpTypes (op : BinaryOp) (lhs rhs : Value)
  | IntOverflow (op : BinaryOp) (lhs rhs : Int)
  | ForIterNotIterable
  | BuiltinFuncErr (msg : String)
  | Dev (msg : String)
  | AtLoc (source : Error) (line col : Nat)
  | AssertArgsFailed (source : Error)
  | AssertThisFailed (source : Error)
  | AssertNoThisFailed (source : Error)
  | AssertStrFailed (source : Error)

/-- The outcome of running a fallible Rust function that may also abort
the process: a success, a returned `Err`, or a runtime panic. -/
inductive Outcome where
  | ok (v : Value)
  | err (e : Error)
  | panic (msg : String)

/-- `BTreeMap::get` on an object's property map, modelled on the sorted
association list. -/
def propsGet (props : List (String × Value × Option Value)) (k : String) :
    Option (Value × Option Value) :=
  match props with
  | [] => none
  | (k2, x) :: rest => if k2 = k then some x else propsGet rest k

mutual

/-- `eval/mod.rs::eq`: deep structural equality; `none` when the two
values are of different types (including any two function values, which
have no case in the source `match` and fall through to `_ => None`).
For lists and objects a pointer-equal handle (`value::ref_eq`, modelled
as identifier equality) short-circuits to `some true`. -/
def eq : Value → Value → Option Bool
  | .null, .null => some true
  | .bool a, .bool b => some (a == b)
  | .int a, .int b => some (a == b)
  | .str a, .str b => some (a == b)
  | .list idx xs, .list idy ys =>
      if idx == idy then some true
      else if xs.length != ys.length then some false
      else eqItems xs ys
  | .object idx xs, .object idy ys =>
      if idx == idy then some true
      else if xs.length != ys.length then some false
      else eqProps xs ys
  | _, _ => none

/-- The element loop of `eq` on lists: the first `none` propagates, the
first `some false` ends the loop with `some false`. -/
def eqItems : List (Value × Option Value) → List (Value × Option Value) →
    Option Bool
  | [], _ => some true
  | x :: xs, y :: ys =>
      match eq x.1 y.1 with
      | none => none
      | some false => some false
      | some true => eqItems xs ys
  | _ :: _, [] => some true

/-- The key loop of `eq` on objects: each key of the left object is looked
up in the right object (a missing key yields `some false`), and the two
property values are compared. -/
def eqProps :
    List (String × Value × Option Value) →
      List (String × Value × Option Value) → Option Bool
  | [], _ => some true
  | (k, x) :: xs, ys =>
      match propsGet ys k with
      | none => some false
      | some y =>
          match eq x.1 y.1 with
          | none => none
          | some false => some false
          | some true => eqProps xs ys

end

/-- `eval/mod.rs::apply_binary_operation`.  The `fresh` parameter models
the fresh `Arc` allocated for the result of `List + List`.  The `Mod`
case translates Rust's built-in `%` on `i64`, which panics on a zero
divisor and on `i64::MIN % -1` and otherwise yields the remainder
truncated toward zero (`Int.tmod`); `Div` uses `checked_div` and turns
`None` into an `IntOverflow` error. -/
def applyBinaryOperation (fresh : Nat) (op : BinaryOp) (opLoc : Nat × Nat)
    (lhs rhs : Value) : Outcome :=
  let line := opLoc.1
  let col := opLoc.2
  let newInvalidOpTypes : Outcome :=
    .err (.AtLoc (.InvalidOpTypes op lhs rhs) line col)
  let newIntOverflow : Int → Int → Outcome := fun a b =>
    .err (.AtLoc (.IntOverflow op a b) line col)
  match op with
  | .eq | .ne =>
    match eq lhs rhs with
    | some v =>
      match op with
      | .eq => .ok (.bool v)
      | _ => .ok (.bool (!v))
    | none => newInvalidOpTypes
  | .sum =>
    match lhs, rhs with
    | .int a, .int b =>
      match checkedAdd a b with
      | some v => .ok (.int v)
      | none => newIntOverflow a b
    | .str a, .str b => .ok (.str (a ++ b))
    | .list _ a, .list _ b => .ok (.list fresh (a ++ b))
    | _, _ => newInvalidOpTypes
  | .sub | .mul | .div | .mod =>
    match lhs, rhs with
    | .int a, .int b =>
      match op with
      | .sub =>
        match checkedSub a b with
        | some v => .ok (.int v)
        | none => newIntOverflow a b
      | .mul =>
        match checkedMul a b with
        | some v => .ok (.int v)
        | none => newIntOverflow a b
      | .div =>
        match checkedDiv a b with
        | some v => .ok (.int v)
        | none => newIntOverflow a b
      | .mod =>
        if b = 0 then
          .panic "attempt to calculate the remainder with a divisor of zero"
        else if a = i64Min ∧ b = -1 then
          .panic "attempt to calculate the remainder with overflow"
        else
          .ok (.int (Int.tmod a b))
      | _ => .panic "unexpected operation"
    | _, _ => newInvalidOpTypes
  | .and | .or =>
    match lhs, rhs with
    | .bool a, .bool b =>
      match op with
      | .and => .ok (.bool (a && b))
      | .or => .ok (.bool (a || b))
      | _ => .panic "unexpected operation"
    | _, _ => newInvalidOpTypes
  | .gt | .gte | .lt | .lte =>
    match lhs, rhs with
    | .int a, .int b =>
      match op with
      | .gt => .ok (.bool (decide (a > b)))
      | .gte => .ok (.bool (decide (a ≥ b)))
      | .lt => .ok (.bool (decide (a < b)))
      | .lte => .ok (.bool (decide (a ≤ b)))
      | _ => .panic "unexpected operation"
    | _, _ => newInvalidOpTypes

end SeedVal

-- More SeedVal definitions follow; all theorems are gathered at the end of the file.
namespace SeedVal

mutual

/-- Handle renaming: shifts every handle identifier by `off`, leaving the
structure untouched.  `reId off v` models the value produced by a second
evaluation of the same side-effect-free closed expression: structurally
identical to `v`, with the container handles allocated afresh. -/
def reId (off : Nat) : Value → Value
  | .null => .null
  | .bool b => .bool b
  | .int n => .int n
  | .str s => .str s
  | .list id xs => .list (id + off) (reIdItems off xs)
  | .object id xs => .object (id + off) (reIdProps off xs)
  | .builtinFunc n => .builtinFunc n
  | .func id n => .func (id + off) n

/-- `reId` on the elements of a list value. -/
def reIdItems (off : Nat) :
    List (Value × Option Value) → List (Value × Option Value)
  | [] => []
  | (v, s) :: rest =>
      (reId off v, reIdSource off s) :: reIdItems off rest

/-- `reId` on the properties of an object value. -/
def reIdProps (off : Nat) :
    List (String × Value × Option Value) →
      List (String × Value × Option Value)
  | [] => []
  | (k, v, s) :: rest =>
      (k, reId off v, reIdSource off s) :: reIdProps off rest

/-- `reId` on an optional source value. -/
def reIdSource (off : Nat) : Option Value → Option Value
  | none => none
  | some v => some (reId off v)

end

mutual

/-- Whether a value contains no function values (neither `BuiltinFunc`
nor `Func`) anywhere inside it. -/
def funcFree : Value → Bool
  | .null => true
  | .bool _ => true
  | .int _ => true
  | .str _ => true
  | .list _ xs => funcFreeItems xs
  | .object _ xs => funcFreeProps xs
  | .builtinFunc _ => false
  | .func _ _ => false

/-- `funcFree` on list elements. -/
def funcFreeItems : List (Value × Option Value) → Bool
  | [] => true
  | (v, _) :: rest => funcFree v && funcFreeItems rest

/-- `funcFree` on object properties. -/
def funcFreeProps : List (String × Value × Option Value) → Bool
  | [] => true
  | (_, v, _) :: rest => funcFree v && funcFreeProps rest

end

/-- The `BTreeMap` representation invariant on an object's property
list: every key is strictly smaller than all keys after it. -/
def keysSorted : List (String × Value × Option Value) → Bool
  | [] => true
  | (k, _) :: rest =>
      rest.all (fun q => decide (k < q.1)) && keysSorted rest

mutual

/-- Every object inside the value satisfies the `BTreeMap` key
invariant `keysSorted`. -/
def sortedObjs : Value → Bool
  | .list _ xs => sortedObjsItems xs
  | .object _ xs => keysSorted xs && sortedObjsProps xs
  | _ => true

/-- `sortedObjs` on list elements. -/
def sortedObjsItems : List (Value × Option Value) → Bool
  | [] => true
  | (v, _) :: rest => sortedObjs v && sortedObjsItems rest

/-- `sortedObjs` on object properties. -/
def sortedObjsProps : List (String × Value × Option Value) → Bool
  | [] => true
  | (_, v, _) :: rest => sortedObjs v && sortedObjsProps rest

end

end SeedVal

namespace SeedVal

/-- Whether a byte is a UTF-8 continuation byte (`0x80..=0xBF`). -/
def isUtf8Cont (b : Nat) : Bool := decide (0x80 ≤ b ∧ b ≤ 0xBF)

/-- Lower bound for the first continuation byte of a multi-byte UTF-8
sequence (tighter for leading bytes `0xE0` and `0xF0`, which would
otherwise admit overlong encodings). -/
def utf8FirstContLo (b : Nat) : Nat :=
  if b = 0xE0 then 0xA0 else if b = 0xF0 then 0x90 else 0x80

/-- Upper bound for the first continuation byte of a multi-byte UTF-8
sequence (tighter for `0xED`, excluding surrogates, and `0xF4`,
excluding scalar values above `0x10FFFF`). -/
def utf8FirstContHi (b : Nat) : Nat :=
  if b = 0xED then 0x9F else if b = 0xF4 then 0x8F else 0xBF

/-- Rust's `String::from_utf8` validation and decoding (strict UTF-8: no
overlong encodings, no surrogates, scalar values at most `0x10FFFF`),
returning the decoded characters, or `none` for invalid input. -/
def utf8Decode : List Nat → Option (List Char)
  | [] => some []
  | b :: rest =>
    if b ≤ 0x7F then
      (utf8Decode rest).map (fun cs => Char.ofNat b :: cs)
    else if 0xC2 ≤ b ∧ b ≤ 0xDF then
      match rest with
      | c1 :: rest2 =>
        if isUtf8Cont c1 then
          (utf8Decode rest2).map (fun cs =>
            Char.ofNat ((b - 0xC0) * 0x40 + (c1 - 0x80)) :: cs)
        else none
      | [] => none
    else if 0xE0 ≤ b ∧ b ≤ 0xEF then
      match rest with
      | c1 :: c2 :: rest2 =>
        if (utf8FirstContLo b ≤ c1 ∧ c1 ≤ utf8FirstContHi b)
            ∧ isUtf8Cont c2 = true then
          (utf8Decode rest2).map (fun cs =>
            Char.ofNat ((b - 0xE0) * 0x1000 + (c1 - 0x80) * 0x40
              + (c2 - 0x80)) :: cs)
        else none
      | _ => none
    else if 0xF0 ≤ b ∧ b ≤ 0xF4 then
      match rest with
      | c1 :: c2 :: c3 :: rest2 =>
        if (utf8FirstContLo b ≤ c1 ∧ c1 ≤ utf8FirstContHi b)
            ∧ isUtf8Cont c2 = true ∧ isUtf8Cont c3 = true then
          (utf8Decode rest2).map (fun cs =>
            Char.ofNat ((b - 0xF0) * 0x40000 + (c1 - 0x80) * 0x1000
              + (c2 - 0x80) * 0x40 + (c3 - 0x80)) :: cs)
        else none
      | _ => none
    else none

/-- UTF-8 encoding of one Unicode scalar value. -/
def encodeUtf8Char (c : Nat) : List Nat :=
  if c ≤ 0x7F then [c]
  else if c ≤ 0x7FF then [0xC0 + c / 0x40, 0x80 + c % 0x40]
  else if c ≤ 0xFFFF then
    [0xE0 + c / 0x1000, 0x80 + c / 0x40 % 0x40, 0x80 + c % 0x40]
  else
    [0xF0 + c / 0x40000, 0x80 + c / 0x1000 % 0x40, 0x80 + c / 0x40 % 0x40,
      0x80 + c % 0x40]

/-- The UTF-8 bytes of a string (Rust `String`s are their UTF-8 bytes;
`String::into_bytes` in `value.rs::new_str_from_string`). -/
def strToBytes (s : String) : List Nat :=
  s.data.foldr (fun c acc => encodeUtf8Char c.toNat ++ acc) []

/-- The error message of `builtins/fns.rs::assert_args`:
`` `<fn>` only takes <n> argument[s] (got <m>) ``. -/
def argsMismatchMsg (fnName : String) (expArgs argsLen : Nat) : String :=
  let plural := if expArgs ≠ 1 then "s" else ""
  "`" ++ fnName ++ "` only takes " ++ toString expArgs ++ " argument"
    ++ plural ++ " (got " ++ toString argsLen ++ ")"

/-- `builtins/fns.rs::assert_args`: checks that a built-in function
received exactly `expArgs` arguments. -/
def assertArgs (fnName : String) (expArgs : Nat)
    (args : List SourcedValue) : Except Error Unit :=
  let argsLen := args.length
  if argsLen ≠ expArgs then
    .error (.BuiltinFuncErr (argsMismatchMsg fnName expArgs argsLen))
  else
    .ok ()

/-- `builtins/fns.rs::assert_no_this`. -/
def assertNoThis (this : Option SourcedValue) : Except Error Unit :=
  match this with
  | none => .ok ()
  | some _ => .error (.Dev "'this' shouldn't exist")

/-- `builtins/fns.rs::assert_this`. -/
def assertThis (this : Option SourcedValue) : Except Error SourcedValue :=
  match this with
  | some v => .ok v
  | none => .error (.Dev "'this' doesn't exist")

/-- `builtins/fns.rs::assert_str`: requires the value to be a string
whose bytes are valid UTF-8 and returns the Rust `String` (modelled by
its UTF-8 bytes; `String::len` is its byte count).  The embedded error
message elides the display of Rust's `FromUtf8Error`. -/
def assertStr (valName : String) (v : SourcedValue) :
    Except Error (List Nat) :=
  match v.1 with
  | .str raw =>
    match utf8Decode raw with
    | some _ => .ok raw
    | none => .error (.BuiltinFuncErr ("couldn't convert `" ++ valName
        ++ "` string to UTF-8"))
  | _ => .error (.Dev "dev err: expected 'string'")

/-- `builtins/type_functions.rs::str_len`: the `strs` type-namespace
function `len`; takes no arguments, requires a string receiver, and
returns its byte length as an `Int`. -/
def strLen (this : Option SourcedValue) (vs : List SourcedValue) :
    Except Error SourcedValue :=
  match assertArgs "len" 0 vs with
  | .error e => .error (.AssertArgsFailed e)
  | .ok _ =>
    match assertThis this with
    | .error e => .error (.AssertThisFailed e)
    | .ok thisV =>
      match assertStr "this" thisV with
      | .error e => .error (.AssertStrFailed e)
      | .ok s => .ok (.int s.length, none)

/-- Rust `{:?}` formatting of an `Option<String>`, used by `render` for
a user function's debug name. -/
def fmtDebugOptString : Option String → String
  | none => "None"
  | some s => "Some(\"" ++ s ++ "\")"

mutual

/-- `builtins/fns.rs::render`: renders a value for `print`.  Lists and
objects render their elements indented by four spaces; objects render
their properties in the stored (`BTreeMap`) order. -/
def render : SourcedValue → Except Error String
  | (v, _) =>
    match v with
    | .null => .ok "<null>"
    | .bool b => .ok (if b then "true" else "false")
    | .int n => .ok (toString n)
    | .str raw =>
      match utf8Decode raw with
      | some cs => .ok cs.asString
      | none =>
        .error (.BuiltinFuncErr "couldn't convert error message to UTF-8")
    | .list _ items =>
      match renderItems items with
      | .error e => .error e
      | .ok body => .ok ("[\n" ++ body ++ "]")
    | .object _ props =>
      match renderProps props with
      | .error e => .error e
      | .ok body => .ok ("\x7b\n" ++ body ++ "\x7d")
    | .builtinFunc name => .ok ("<built-in function '" ++ name ++ "'>")
    | .func _ name =>
      .ok ("<function '" ++ fmtDebugOptString name ++ "'>")

/-- The element loop of `render` on a list value. -/
def renderItems : List (Value × Option Value) → Except Error String
  | [] => .ok ""
  | item :: rest =>
    match render item with
    | .error e => .error e
    | .ok ri =>
      let indented := ri.replace "\n" "\n    "
      match renderItems rest with
      | .error e => .error e
      | .ok body => .ok ("    " ++ indented ++ ",\n" ++ body)

/-- The property loop of `render` on an object value, following the
stored key order. -/
def renderProps :
    List (String × Value × Option Value) → Except Error String
  | [] => .ok ""
  | (name, p) :: rest =>
    match render p with
    | .error e => .error e
    | .ok rp =>
      let indented := rp.replace "\n" "\n    "
      match renderProps rest with
      | .error e => .error e
      | .ok body =>
        .ok ("    \"" ++ name ++ "\": " ++ indented ++ ",\n" ++ body)

end

/-- `builtins/fns.rs::print`: requires exactly one argument and no
receiver, renders the argument and returns the null value.  The line
written to stdout is modelled as the second component of the result. -/
def print (this : Option SourcedValue) (args : List SourcedValue) :
    Except Error (SourcedValue × String) :=
  match assertArgs "print" 1 args with
  | .error e => .error (.AssertArgsFailed e)
  | .ok _ =>
    match assertNoThis this with
    | .error e => .error (.AssertNoThisFailed e)
    | .ok _ =>
      match args with
      | a :: _ =>
        match render a with
        | .error e => .error e
        | .ok s => .ok ((.null, none), s)
      | [] => .error (.Dev "unreachable: assert_args passed an empty list")

/-- `eval/mod.rs::value_to_pairs`: the "index, value" pairs of an
iterable value, used by `for` loops.  Strings yield
`(index, one-byte string)`, lists `(index, element)`, objects
`(key, value)` in the stored (`BTreeMap`) order. -/
def valueToPairs (v : Value) :
    Except Error (List (SourcedValue × SourcedValue)) :=
  match v with
  | .str s =>
    .ok (s.enum.map (fun p => ((.int p.1, none), (.str [p.2], none))))
  | .list _ items =>
    .ok (items.enum.map (fun p => ((.int p.1, none), p.2)))
  | .object _ props =>
    .ok (props.map (fun kp => ((.str (strToBytes kp.1), none), kp.2)))
  | _ => .error .ForIterNotIterable

/-- `BTreeMap::insert` on the sorted association-list model: keeps keys
strictly sorted, overwriting an existing binding. -/
def btreeInsert (k : String) (v : Value × Option Value) :
    List (String × Value × Option Value) →
      List (String × Value × Option Value)
  | [] => [(k, v)]
  | (k2, v2) :: rest =>
    if k < k2 then (k, v) :: (k2, v2) :: rest
    else if k = k2 then (k, v) :: rest
    else (k2, v2) :: btreeInsert k v rest

/-- Building an object map by repeated `BTreeMap::insert`, as the object
literal evaluator and `bind_object`'s collect case do. -/
def btreeFromList (kvs : List (String × Value × Option Value)) :
    List (String × Value × Option Value) :=
  kvs.foldl (fun m p => btreeInsert p.1 p.2 m) []

/-- The specification's wording of object rendering, for the refinement
conjunct of claim C6: render the properties sorted by key (explicitly
sorting, where the source relies on the `BTreeMap` invariant). -/
def renderObjectSpec (props : List (String × Value × Option Value)) :
    Except Error String :=
  match renderProps (props.insertionSort (fun a b => a.1 ≤ b.1)) with
  | .error e => .error e
  | .ok body => .ok ("\x7b\n" ++ body ++ "\x7d")

end SeedVal

namespace SeedScope

/-- Runtime values of the `scope.rs` revision, in which every value lives
in an `Arc<Mutex<Value>>` cell and lists/objects hold the cell addresses
of their elements (`value.rs`: `List = Vec<ValRefWithSource>`,
`Object = HashMap<String, ValRefWithSource>`); functions are
`BuiltInFunc` values carrying a native function (identified here by
name). -/
inductive Value where
  | null
  | bool (b : Bool)
  | int (n : Int)
  | str (s : List Nat)
  | list (elems : List Nat)
  | object (props : List (String × Nat))
  | builtinFunc (name : String)
deriving DecidableEq

/-- `ValRefWithSource`: a shared value reference (the address of an
`Arc<Mutex<Value>>` cell) together with the optional source it was read
from. -/
structure ValRefWithSource where
  v : Nat
  source : Option Nat
deriving DecidableEq

/-- The heap of `Arc<Mutex<Value>>` cells: an association list of
allocated cells and the next fresh address. -/
structure Heap where
  cells : List (Nat × Value)
  next : Nat
deriving DecidableEq

/-- Reading the cell at an address. -/
def lookupCells (cells : List (Nat × Value)) (a : Nat) : Option Value :=
  match cells with
  | [] => none
  | (a2, v) :: rest => if a2 = a then some v else lookupCells rest a

/-- Reading a heap cell (`.lock().unwrap()` on the `Arc<Mutex<Value>>`). -/
def Heap.lookup (h : Heap) (a : Nat) : Option Value :=
  lookupCells h.cells a

/-- Allocating a fresh cell (`Arc::new(Mutex::new(v))`). -/
def Heap.alloc (h : Heap) (v : Value) : Nat × Heap :=
  (h.next, ⟨h.cells ++ [(h.next, v)], h.next + 1⟩)

/-- Overwriting the contents of the cell at an address (an in-place
mutation through any alias of the cell). -/
def Heap.update (h : Heap) (a : Nat) (v : Value) : Heap :=
  ⟨h.cells.map (fun c => if c.1 = a then (c.1, v) else c), h.next⟩

/-- Heap well-formedness: every allocated address is below `next`. -/
def Heap.Wf (h : Heap) : Prop := ∀ p ∈ h.cells, p.1 < h.next

/-- The `matches!(…, Value::Object(_) | Value::List(_))` test of
`scope.rs::copy`: only objects and lists count as compound (mutable)
types — functions do not. -/
def isCompoundType : Value → Bool
  | .object _ => true
  | .list _ => true
  | _ => false

/-- `scope.rs::copy`: returns the reference itself if it points at a
compound (object or list) value, and otherwise clones the immutable
value into a freshly allocated cell, keeping the `source`.  A dangling
address (never produced by the evaluator) is returned unchanged. -/
def copy (h : Heap) (v : ValRefWithSource) : ValRefWithSource × Heap :=
  match h.lookup v.v with
  | none => (v, h)
  | some val =>
    if isCompoundType val then
      (v, h)
    else
      let (a, h2) := h.alloc val
      (⟨a, v.source⟩, h2)

/-- One scope frame (`Scope = HashMap<String, (ValRefWithSource,
Location)>`). -/
abbrev Scope := List (String × ValRefWithSource × (Nat × Nat))

/-- The scope stack, innermost frame first: the Rust `Vec` is searched
with `.iter().rev()`, so its last frame is this list's head. -/
abbrev ScopeStack := List Scope

/-- Whether a frame contains a binding for `name`. -/
def scopeContains (f : Scope) (name : String) : Bool :=
  f.any (fun e => e.1 == name)

/-- `set_val_ref` applied to the slot of `name`: replaces the stored
reference, keeping the declaration location. -/
def scopeSet (f : Scope) (name : String) (v : ValRefWithSource) : Scope :=
  f.map (fun e => if e.1 == name then (e.1, v, e.2.2) else e)

/-- `scope.rs::ScopeStack::assign`: walks the frames from the innermost
outwards; the first frame containing `name` has its slot overwritten
with `copy` of the value (`set_val_ref`), returning `true`; returns
`false` if no frame contains `name`. -/
def assign (h : Heap) (stack : ScopeStack) (name : String)
    (v : ValRefWithSource) : Bool × ScopeStack × Heap :=
  match stack with
  | [] => (false, [], h)
  | f :: rest =>
    if scopeContains f name then
      let (v2, h2) := copy h v
      (true, scopeSet f name v2 :: rest, h2)
    else
      let (found, rest2, h2) := assign h rest name v
      (found, f :: rest2, h2)

end SeedScope

namespace SeedVm

/-- Source location `(line, col)`, from `ast.rs::Location`. -/
abbrev Loc := Nat × Nat

mutual

/-- `ast.rs::RawExpr`, restricted to the constructors exercised by the
claims about evaluation order, top-level escapes and list destructuring
(`Index`, `RangeIndex`, `Range`, `Prop`, `Object` and string
interpolation slots are not part of the embedded subset). -/
inductive RawExpr where
  | nullE
  | boolE (b : Bool)
  | intE (n : Int)
  | strE (s : List Nat)
  | varE (name : String)
  | listE (items : List ListItem) (collect : Bool)
  | funcE (args : List Expr) (collectArgs : Bool) (stmts : List Stmt)
  | callE (func : Expr) (args : List ListItem)

/-- `ast.rs::Expr`: a raw expression with its source location. -/
inductive Expr where
  | mk (raw : RawExpr) (loc : Loc)

/-- `ast.rs::ListItem`: a list element or call argument, possibly
spread. -/
inductive ListItem where
  | mk (expr : Expr) (isSpread : Bool)

/-- `ast.rs::Stmt`, restricted to the statements exercised by the claims
(`OpAssign` and `For` are not part of the embedded subset). -/
inductive Stmt where
  | block (block : List Stmt)
  | expr (expr : Expr)
  | declare (lhs : Expr) (rhs : Expr)
  | assign (lhs : Expr) (rhs : Expr)
  | ifS (branches : List Branch) (elseStmts : Option (List Stmt))
  | whileS (cond : Expr) (stmts : List Stmt)
  | breakS (loc : Loc)
  | continueS (loc : Loc)
  | funcS (name : String) (nameLoc : Loc) (args : List Expr)
      (collectArgs : Bool) (stmts : List Stmt)
  | returnS (loc : Loc) (expr : Expr)

/-- `ast.rs::Branch`: one `if`/`else if` branch. -/
inductive Branch where
  | mk (cond : Expr) (stmts : List Stmt)

end

/-- The raw expression of an `Expr`. -/
def Expr.raw : Expr → RawExpr
  | .mk r _ => r

/-- The location of an `Expr`. -/
def Expr.loc : Expr → Loc
  | .mk _ l => l

/-- Runtime values (`value.rs` of the `eval/mod.rs` revision); the
shared containers hold a reference `r` into the store. -/
inductive Value where
  | null
  | bool (b : Bool)
  | int (n : Int)
  | str (s : List Nat)
  | list (r : Nat)
  | object (r : Nat)
  | builtinFunc (name : String)
  | func (r : Nat)
deriving DecidableEq, Repr

/-- `value.rs::SourcedValue`: a value with the optional receiver it was
obtained from. -/
structure SourcedValue where
  v : Value
  source : Option Value
deriving DecidableEq, Repr

/-- `value.rs::Func`: the payload of a function value — optional name,
parameter expressions, collect flag, body, and the captured scope stack
(a list of frame references, innermost first). -/
structure FuncData where
  name : Option String
  args : List Expr
  collectArgs : Bool
  stmts : List Stmt
  closure : List Nat

/-- One scope frame: `HashMap<String, (SourcedValue, Location)>`. -/
abbrev Frame := List (String × SourcedValue × Loc)

/-- The store backing all `Arc<Mutex<_>>` data: list, object and
function payloads, and the scope frames, each addressed by a reference
allocated from the shared counter `next`. -/
structure Store where
  lists : List (Nat × List SourcedValue)
  objects : List (Nat × List (String × SourcedValue))
  funcs : List (Nat × FuncData)
  frames : List (Nat × Frame)
  next : Nat

set_option maxHeartbeats 1600000 in
/-- Errors (`eval/error.rs`), restricted to the variants reachable from
the embedded subset; the `…Failed` variants are the snafu context
wrappers.  `Dev "out of fuel"` is the artificial result of exhausting
the embedding's fuel parameter and corresponds to no source behaviour. -/
inductive Error where
  | CannotCallNonFunc (v : Value)
  | Undefined (name : String)
  | InvalidBindTarget (descr : String)
  | AlreadyInBinding (name : String)
  | AlreadyInScope (name : String) (prevLine prevCol : Nat)
  | IncorrectType (descr expType : String) (value : Value)
  | ArgNumMismatch (need got : Nat)
  | TooFewArgs (minimum got : Nat)
  | BreakOutsideLoop
  | ContinueOutsideLoop
  | ReturnOutsideFunction
  | ListCollectOutsideDestructure
  | SpreadNonListInList (value : Value)
  | ListDestructureOnNonList (value : Value)
  | ListDestructureItemMismatch (lhsLen rhsLen : Nat)
  | ListCollectTooFew (lhsLen rhsLen : Nat)
  | SpreadInListDestructure (index : Nat)
  | BuiltinFuncErr (msg : String)
  | Dev (msg : String)
  | AtLoc (source : Error) (line col : Nat)
  | BindFailed (source : Error)
  | BindListItemFailed (source : Error)
  | EvalStmtsFailed (source : Error)
  | EvalStmtsWithScopeStackFailed (source : Error)
  | EvalStmtFailed (source : Error)
  | EvalBlockFailed (source : Error)
  | EvalExprFailed (source : Error)
  | EvalDeclarationRhsFailed (source : Error)
  | DeclarationBindFailed (source : Error)
  | EvalAssignmentRhsFailed (source : Error)
  | AssignmentBindFailed (source : Error)
  | EvalIfConditionFailed (source : Error)
  | EvalIfStatementsFailed (source : Error)
  | EvalElseStatementsFailed (source : Error)
  | EvalWhileConditionFailed (source : Error)
  | EvalWhileStatementsFailed (source : Error)
  | DeclareFunctionFailed (source : Error)
  | EvalReturnExprFailed (source : Error)
  | EvalListItemsFailed (source : Error)
  | EvalListItemFailed (source : Error)
  | EvalCallFailed (source : Error)
  | EvalCallArgsFailed (source : Error)
  | EvalCallFuncFailed (source : Error)
  | EvalBuiltinFuncCallFailed (source : Error) (funcName : Option String)
      (callLoc : Loc)
  | EvalFuncCallFailed (source : Error) (funcName : Option String)
      (callLoc : Loc)
deriving DecidableEq

/-- `eval/mod.rs::Escape`: the statement evaluator's control-flow
outcome. -/
inductive Escape where
  | none
  | brk (loc : Loc)
  | cont (loc : Loc)
  | ret (value : SourcedValue) (loc : Loc)
deriving DecidableEq, Repr

/-- `bind.rs::BindType`. -/
inductive BindType where
  | Declaration
  | Assignment
deriving DecidableEq

/-- Store: read a list payload. -/
def Store.getList (st : Store) (r : Nat) : Option (List SourcedValue) :=
  (st.lists.find? (fun p => p.1 == r)).map (fun p => p.2)

/-- Store: read a function payload. -/
def Store.getFunc (st : Store) (r : Nat) : Option FuncData :=
  (st.funcs.find? (fun p => p.1 == r)).map (fun p => p.2)

/-- Store: read a scope frame. -/
def Store.getFrame (st : Store) (r : Nat) : Option Frame :=
  (st.frames.find? (fun p => p.1 == r)).map (fun p => p.2)

/-- Store: allocate a fresh list (`value::new_list`). -/
def Store.allocList (st : Store) (items : List SourcedValue) :
    Nat × Store :=
  (st.next,
    { st with lists := st.lists ++ [(st.next, items)],
              next := st.next + 1 })

/-- Store: allocate a fresh function payload (`value::new_func`). -/
def Store.allocFunc (st : Store) (fd : FuncData) : Nat × Store :=
  (st.next,
    { st with funcs := st.funcs ++ [(st.next, fd)], next := st.next + 1 })

/-- Store: allocate a fresh empty scope frame
(`ScopeStack::new_from_push(HashMap::new())`). -/
def Store.allocFrame (st : Store) : Nat × Store :=
  (st.next,
    { st with frames := st.frames ++ [(st.next, [])],
              next := st.next + 1 })

/-- Store: overwrite a scope frame. -/
def Store.setFrame (st : Store) (r : Nat) (fr : Frame) : Store :=
  { st with
      frames := st.frames.map (fun p => if p.1 == r then (p.1, fr) else p) }

/-- Frame: read a binding. -/
def frameGet (fr : Frame) (name : String) : Option (SourcedValue × Loc) :=
  (fr.find? (fun e => e.1 == name)).map (fun e => e.2)

/-- Frame: whether a binding exists. -/
def frameContains (fr : Frame) (name : String) : Bool :=
  fr.any (fun e => e.1 == name)

/-- Frame: insert a new binding (`HashMap::insert` for a fresh key). -/
def frameInsert (fr : Frame) (name : String) (v : SourcedValue)
    (loc : Loc) : Frame :=
  fr ++ [(name, v, loc)]

/-- Frame: replace an existing binding's value. -/
def frameSet (fr : Frame) (name : String) (v : SourcedValue) : Frame :=
  fr.map (fun e => if e.1 == name then (e.1, v, e.2.2) else e)

/-- `ScopeStack::get` (scope.rs, typed at the `eval/mod.rs` revision's
`SourcedValue`): search the frames from the innermost outwards. -/
def scopesGet (st : Store) (sk : List Nat) (name : String) :
    Option SourcedValue :=
  match sk with
  | [] => Option.none
  | f :: rest =>
    match st.getFrame f with
    | Option.none => scopesGet st rest name
    | some fr =>
      match frameGet fr name with
      | some (v, _) => some v
      | Option.none => scopesGet st rest name

/-- `ScopeStack::declare`: insert into the innermost frame; err with the
previous declaration's location when the name already exists there.
A scalar `SourcedValue` stored in a frame is an independent copy by
construction, while list/object/func values share their store reference
(the `eval/mod.rs` revision's copy policy).  The empty stack (which the
source turns into a panic via `.expect`) is modelled as an error at
`(0, 0)` and is unreachable in the theorems. -/
def scopesDeclare (st : Store) (sk : List Nat) (name : String) (loc : Loc)
    (v : SourcedValue) : Except Loc Store :=
  match sk with
  | [] => .error (0, 0)
  | f :: _ =>
    match st.getFrame f with
    | Option.none => .error (0, 0)
    | some fr =>
      match frameGet fr name with
      | some (_, prevLoc) => .error prevLoc
      | Option.none => .ok (st.setFrame f (frameInsert fr name v loc))

/-- `ScopeStack::assign`: overwrite the binding in the innermost frame
that contains the name, returning whether one was found. -/
def scopesAssign (st : Store) (sk : List Nat) (name : String)
    (v : SourcedValue) : Bool × Store :=
  match sk with
  | [] => (false, st)
  | f :: rest =>
    match st.getFrame f with
    | Option.none => scopesAssign st rest name v
    | some fr =>
      if frameContains fr name then
        (true, st.setFrame f (frameSet fr name v))
      else
        scopesAssign st rest name v

end SeedVm

namespace SeedVm

/-- `bind.rs::bind_next_name`: the `_` pattern is a silent discard; a
name reused within one binding is `AlreadyInBinding`; otherwise declare
into the innermost frame or assign to the innermost binding. -/
def bindNextName (st : Store) (sk : List Nat) (names : List String)
    (name : String) (nameLoc : Loc) (rhs : SourcedValue) (bt : BindType) :
    Except Error (List String × Store) :=
  if name = "_" then .ok (names, st)
  else if name ∈ names then
    .error (.AtLoc (.AlreadyInBinding name) nameLoc.1 nameLoc.2)
  else
    let names2 := name :: names
    match bt with
    | .Declaration =>
      match scopesDeclare st sk name nameLoc rhs with
      | .error (prevLine, prevCol) =>
        .error (.AtLoc (.AlreadyInScope name prevLine prevCol)
          nameLoc.1 nameLoc.2)
      | .ok st2 => .ok (names2, st2)
    | .Assignment =>
      let (found, st2) := scopesAssign st sk name rhs
      if found then .ok (names2, st2)
      else .error (.AtLoc (.Undefined name) nameLoc.1 nameLoc.2)

mutual

/-- `bind.rs::bind_next`, restricted to the embedded expression subset:
variables bind by name, list patterns destructure, and every literal,
anonymous function, or call on the left-hand side is an
`InvalidBindTarget`. -/
def bindNext (st : Store) (sk : List Nat) (names : List String)
    (lhs : Expr) (rhs : SourcedValue) (bt : BindType) :
    Except Error (List String × Store) :=
  match lhs with
  | .mk raw loc =>
    match raw with
    | .varE name => bindNextName st sk names name loc rhs bt
    | .listE items collect =>
      match rhs.v with
      | .list r =>
        match st.getList r with
        | some elems => bindList st sk names items collect loc elems bt
        | Option.none => .error (.Dev "dangling list reference")
      | value =>
        .error (.AtLoc (.ListDestructureOnNonList value) loc.1 loc.2)
    | .nullE =>
      .error (.AtLoc (.InvalidBindTarget "`null`") loc.1 loc.2)
    | .boolE _ =>
      .error (.AtLoc (.InvalidBindTarget "a boolean literal") loc.1 loc.2)
    | .intE _ =>
      .error (.AtLoc (.InvalidBindTarget "an integer literal") loc.1 loc.2)
    | .strE _ =>
      .error (.AtLoc (.InvalidBindTarget "a string literal") loc.1 loc.2)
    | .funcE _ _ _ =>
      .error (.AtLoc (.InvalidBindTarget "an anonymous function")
        loc.1 loc.2)
    | .callE _ _ =>
      .error (.AtLoc (.InvalidBindTarget "a function call") loc.1 loc.2)

/-- `bind.rs::bind_list`: length checks first — a collect destructure
requires `lhs_len - 1 ≤ rhs_len` (`ListCollectTooFew` otherwise), a
plain one requires `lhs_len = rhs_len` — then the item loop. -/
def bindList (st : Store) (sk : List Nat) (names : List String)
    (lhs : List ListItem) (collect : Bool) (lhsLoc : Loc)
    (rhsElems : List SourcedValue) (bt : BindType) :
    Except Error (List String × Store) :=
  let lhsLen := lhs.length
  let rhsLen := rhsElems.length
  if collect ∧ lhsLen - 1 > rhsLen then
    .error (.AtLoc (.ListCollectTooFew lhsLen rhsLen) lhsLoc.1 lhsLoc.2)
  else if ¬collect ∧ lhsLen ≠ rhsLen then
    .error (.AtLoc (.ListDestructureItemMismatch lhsLen rhsLen)
      lhsLoc.1 lhsLoc.2)
  else
    bindListItems st sk names lhs 0 lhsLen collect lhsLoc rhsElems bt

/-- The item loop of `bind_list`: a spread item is an error; the last
item of a collect destructure receives the remaining suffix as a fresh
list; every other item receives the element at its index. -/
def bindListItems (st : Store) (sk : List Nat) (names : List String)
    (items : List ListItem) (i : Nat) (lhsLen : Nat) (collect : Bool)
    (lhsLoc : Loc) (rhsElems : List SourcedValue) (bt : BindType) :
    Except Error (List String × Store) :=
  match items with
  | [] => .ok (names, st)
  | item :: rest =>
    match item with
    | .mk e isSpread =>
      if isSpread then
        .error (.AtLoc (.SpreadInListDestructure i) lhsLoc.1 lhsLoc.2)
      else
        let (rhsI, st2) :=
          if collect ∧ i = lhsLen - 1 then
            let (r, st2) := st.allocList (rhsElems.drop (lhsLen - 1))
            ((⟨.list r, Option.none⟩ : SourcedValue), st2)
          else
            (rhsElems.getD i ⟨.null, Option.none⟩, st)
        match bindNext st2 sk names e rhsI bt with
        | .error err => .error (.BindListItemFailed err)
        | .ok (names2, st3) =>
          bindListItems st3 sk names2 rest (i + 1) lhsLen collect lhsLoc
            rhsElems bt

end

/-- `bind.rs::bind`: a bind with a fresh `names_in_binding` set. -/
def bind (st : Store) (sk : List Nat) (lhs : Expr) (rhs : SourcedValue)
    (bt : BindType) : Except Error Store :=
  match bindNext st sk [] lhs rhs bt with
  | .error e => .error e
  | .ok (_, st2) => .ok st2

/-- `bind.rs::bind_name`: a name bind with a fresh `names_in_binding`
set. -/
def bindName (st : Store) (sk : List Nat) (name : String) (nameLoc : Loc)
    (rhs : SourcedValue) (bt : BindType) : Except Error Store :=
  match bindNextName st sk [] name nameLoc rhs bt with
  | .error e => .error e
  | .ok (_, st2) => .ok st2

/-- The `new_bindings` loop at the top of `eval_stmts`: each binding is
declared via `bind`, whose error is wrapped in `BindFailed`. -/
def bindAll (st : Store) (sk : List Nat) :
    List (Expr × SourcedValue) → Except Error Store
  | [] => .ok st
  | (lhs, rhs) :: rest =>
    match bind st sk lhs rhs .Declaration with
    | .error e => .error (.BindFailed e)
    | .ok st2 => bindAll st2 sk rest

/-- The native function table.  The embedded subset seeds no builtin
values into any scope, so no program of the subset can produce a
`BuiltinFunc` value and this call is unreachable in the theorems; it
stands for the `f(this, args)` indirect call of `eval_call`. -/
def applyBuiltin (name : String) (this : Option SourcedValue)
    (args : List SourcedValue) (st : Store) :
    Except Error (SourcedValue × Store) :=
  .error (.BuiltinFuncErr "native function not modelled")

/-- The argument-binding loop of `eval_call`: parameters are paired with
the argument values positionally; with `collect_args` the last parameter
receives the remaining arguments as a fresh list
(`value::new_list(arg_vals[num_params-1 ..])`). -/
def mkCallBindings (st : Store) (params : List Expr) (collectArgs : Bool)
    (argVals : List SourcedValue) :
    List (Expr × SourcedValue) × Store :=
  match params with
  | [] => ([], st)
  | [p] =>
    if collectArgs then
      let (r, st2) := st.allocList argVals
      ([(p, ⟨.list r, Option.none⟩)], st2)
    else
      ([(p, argVals.headD ⟨.null, Option.none⟩)], st)
  | p :: q :: rest =>
    let (bs, st2) :=
      mkCallBindings st (q :: rest) collectArgs (argVals.drop 1)
    ((p, argVals.headD ⟨.null, Option.none⟩) :: bs, st2)

mutual

/-- `eval/mod.rs::eval_expr`, restricted to the embedded subset.  The
fuel parameter bounds recursion through the store (function bodies and
loop iterations); every theorem is stated conditionally on the result,
never on the fuel branch. -/
def evalExpr (fuel : Nat) (st : Store) (sk : List Nat) (e : Expr) :
    Except Error (SourcedValue × Store) :=
  match fuel with
  | 0 => .error (.Dev "out of fuel")
  | n + 1 =>
    match e with
    | .mk raw loc =>
      match raw with
      | .nullE => .ok (⟨.null, Option.none⟩, st)
      | .boolE b => .ok (⟨.bool b, Option.none⟩, st)
      | .intE m => .ok (⟨.int m, Option.none⟩, st)
      | .strE s => .ok (⟨.str s, Option.none⟩, st)
      | .varE name =>
        match scopesGet st sk name with
        | some v => .ok (v, st)
        | Option.none => .error (.AtLoc (.Undefined name) loc.1 loc.2)
      | .listE items collect =>
        if collect then
          .error (.AtLoc .ListCollectOutsideDestructure loc.1 loc.2)
        else
          match evalListItems n st sk items with
          | .error err => .error (.EvalListItemsFailed err)
          | .ok (vals, st2) =>
            let (r, st3) := st2.allocList vals
            .ok (⟨.list r, Option.none⟩, st3)
      | .funcE args collectArgs stmts =>
        let (r, st2) :=
          st.allocFunc ⟨Option.none, args, collectArgs, stmts, sk⟩
        .ok (⟨.func r, Option.none⟩, st2)
      | .callE func args =>
        match evalCall n st sk func args loc with
        | .error err => .error (.EvalCallFailed err)
        | .ok r => .ok r

/-- `eval/mod.rs::eval_list_items`: evaluates the items left to right,
inlining spread lists; each item's evaluation error is wrapped in
`EvalListItemFailed`. -/
def evalListItems (fuel : Nat) (st : Store) (sk : List Nat)
    (items : List ListItem) :
    Except Error (List SourcedValue × Store) :=
  match fuel with
  | 0 => .error (.Dev "out of fuel")
  | n + 1 =>
    match items with
    | [] => .ok ([], st)
    | item :: rest =>
      match item with
      | .mk e isSpread =>
        match evalExpr n st sk e with
        | .error err => .error (.EvalListItemFailed err)
        | .ok (v, st2) =>
          if !isSpread then
            match evalListItems n st2 sk rest with
            | .error err => .error err
            | .ok (vals, st3) => .ok (v :: vals, st3)
          else
            match v.v with
            | .list r =>
              match st2.getList r with
              | some elems =>
                match evalListItems n st2 sk rest with
                | .error err => .error err
                | .ok (vals, st3) => .ok (elems ++ vals, st3)
              | Option.none => .error (.Dev "dangling list reference")
            | value =>
              .error (.AtLoc (.SpreadNonListInList value)
                e.loc.1 e.loc.2)

/-- `eval/mod.rs::eval_call`: evaluates the argument list first
(wrapping its error in `EvalCallArgsFailed`), then the callee (wrapping
its error in `EvalCallFuncFailed`), then dispatches on the callee
value: built-in functions receive the callee's `source` as `this`; user
functions are arity-checked, their parameters bound positionally (the
collect parameter takes the surplus as a list), `this` is added when the
callee had a `source`, and the body runs in the captured closure. -/
def evalCall (fuel : Nat) (st : Store) (sk : List Nat) (func : Expr)
    (args : List ListItem) (loc : Loc) :
    Except Error (SourcedValue × Store) :=
  match fuel with
  | 0 => .error (.Dev "out of fuel")
  | n + 1 =>
    match evalListItems n st sk args with
    | .error err => .error (.EvalCallArgsFailed err)
    | .ok (argVals, st2) =>
      match evalExpr n st2 sk func with
      | .error err => .error (.EvalCallFuncFailed err)
      | .ok (funcVal, st3) =>
        match funcVal.v with
        | .builtinFunc name =>
          let this := funcVal.source.map
            (fun s => (⟨s, Option.none⟩ : SourcedValue))
          match applyBuiltin name this argVals st3 with
          | .error err =>
            .error (.EvalBuiltinFuncCallFailed err (some name) loc)
          | .ok r => .ok r
        | .func r =>
          match st3.getFunc r with
          | Option.none => .error (.Dev "dangling func reference")
          | some fd =>
            let numParams := fd.args.length
            let got := argVals.length
            if fd.collectArgs ∧ numParams - 1 > got then
              .error (.AtLoc (.TooFewArgs (numParams - 1) got)
                loc.1 loc.2)
            else if ¬fd.collectArgs ∧ numParams ≠ got then
              .error (.AtLoc (.ArgNumMismatch numParams got) loc.1 loc.2)
            else
              let (bindings, st4) :=
                mkCallBindings st3 fd.args fd.collectArgs argVals
              let bindings2 :=
                match funcVal.source with
                | some s =>
                  bindings
                    ++ [(Expr.mk (.varE "this") (0, 0),
                        ⟨s, Option.none⟩)]
                | Option.none => bindings
              match evalStmts n st4 fd.closure bindings2 fd.stmts with
              | .error err => .error (.EvalFuncCallFailed err fd.name loc)
              | .ok (esc, st5) =>
                match esc with
                | .none => .ok (⟨.null, Option.none⟩, st5)
                | .brk _ => .error .BreakOutsideLoop
                | .cont _ => .error .ContinueOutsideLoop
                | .ret v _ => .ok (v, st5)
        | v => .error (.AtLoc (.CannotCallNonFunc v) loc.1 loc.2)

/-- `eval/mod.rs::eval_expr_to_bool` (via the `match_eval_expr` macro). -/
def evalExprToBool (fuel : Nat) (st : Store) (sk : List Nat)
    (descr : String) (e : Expr) : Except Error (Bool × Store) :=
  match fuel with
  | 0 => .error (.Dev "out of fuel")
  | n + 1 =>
    match evalExpr n st sk e with
    | .error err => .error (.EvalExprFailed err)
    | .ok (sv, st2) =>
      match sv.v with
      | .bool b => .ok (b, st2)
      | value =>
        .error (.AtLoc (.IncorrectType descr "bool" value)
          e.loc.1 e.loc.2)

/-- `eval/mod.rs::eval_stmt`, restricted to the embedded subset.  A bare
block's escape is discarded by the source (`eval_stmts_in_new_scope(…)?;`
followed by falling through to `Ok(Escape::None)`), and that behaviour
is preserved here. -/
def evalStmt (fuel : Nat) (st : Store) (sk : List Nat) (stmt : Stmt) :
    Except Error (Escape × Store) :=
  match fuel with
  | 0 => .error (.Dev "out of fuel")
  | n + 1 =>
    match stmt with
    | .block block =>
      match evalStmts n st sk [] block with
      | .error err => .error (.EvalBlockFailed err)
      | .ok (_, st2) => .ok (.none, st2)
    | .expr e =>
      match evalExpr n st sk e with
      | .error err => .error (.EvalExprFailed err)
      | .ok (_, st2) => .ok (.none, st2)
    | .declare lhs rhs =>
      match evalExpr n st sk rhs with
      | .error err => .error (.EvalDeclarationRhsFailed err)
      | .ok (v, st2) =>
        match bind st2 sk lhs v .Declaration with
        | .error err => .error (.DeclarationBindFailed err)
        | .ok st3 => .ok (.none, st3)
    | .assign lhs rhs =>
      match evalExpr n st sk rhs with
      | .error err => .error (.EvalAssignmentRhsFailed err)
      | .ok (v, st2) =>
        match bind st2 sk lhs v .Assignment with
        | .error err => .error (.AssignmentBindFailed err)
        | .ok st3 => .ok (.none, st3)
    | .ifS branches elseStmts => evalIfBranches n st sk branches elseStmts
    | .whileS cond stmts =>
      match evalExprToBool n st sk "condition" cond with
      | .error err => .error (.EvalWhileConditionFailed err)
      | .ok (b, st2) =>
        if !b then .ok (.none, st2)
        else
          match evalStmts n st2 sk [] stmts with
          | .error err => .error (.EvalWhileStatementsFailed err)
          | .ok (esc, st3) =>
            match esc with
            | .none => evalStmt n st3 sk (.whileS cond stmts)
            | .cont _ => evalStmt n st3 sk (.whileS cond stmts)
            | .brk _ => .ok (.none, st3)
            | .ret v l => .ok (.ret v l, st3)
    | .breakS loc => .ok (.brk loc, st)
    | .continueS loc => .ok (.cont loc, st)
    | .funcS name nameLoc args collectArgs stmts =>
      let (r, st2) := st.allocFunc ⟨some name, args, collectArgs, stmts, sk⟩
      match bindName st2 sk name nameLoc ⟨.func r, Option.none⟩
          .Declaration with
      | .error err => .error (.DeclareFunctionFailed err)
      | .ok st3 => .ok (.none, st3)
    | .returnS loc e =>
      match evalExpr n st sk e with
      | .error err => .error (.EvalReturnExprFailed err)
      | .ok (v, st2) => .ok (.ret v loc, st2)

/-- The branch loop of `eval_stmt`'s `If` case: conditions are evaluated
in declaration order; the first true branch's body runs in a fresh scope
and its escape propagates; otherwise the `else` body, if any. -/
def evalIfBranches (fuel : Nat) (st : Store) (sk : List Nat)
    (branches : List Branch) (elseStmts : Option (List Stmt)) :
    Except Error (Escape × Store) :=
  match fuel with
  | 0 => .error (.Dev "out of fuel")
  | n + 1 =>
    match branches with
    | [] =>
      match elseStmts with
      | some stmts =>
        match evalStmts n st sk [] stmts with
        | .error err => .error (.EvalElseStatementsFailed err)
        | .ok r => .ok r
      | Option.none => .ok (.none, st)
    | .mk cond stmts :: rest =>
      match evalExprToBool n st sk "condition" cond with
      | .error err => .error (.EvalIfConditionFailed err)
      | .ok (b, st2) =>
        if b then
          match evalStmts n st2 sk [] stmts with
          | .error err => .error (.EvalIfStatementsFailed err)
          | .ok r => .ok r
        else
          evalIfBranches n st2 sk rest elseStmts

/-- `eval/mod.rs::eval_stmts`: pushes a fresh scope frame, declares the
given bindings in it, and runs the statements with the extended stack. -/
def evalStmts (fuel : Nat) (st : Store) (sk : List Nat)
    (bindings : List (Expr × SourcedValue)) (stmts : List Stmt) :
    Except Error (Escape × Store) :=
  match fuel with
  | 0 => .error (.Dev "out of fuel")
  | n + 1 =>
    let (f, st2) := st.allocFrame
    let newSk := f :: sk
    match bindAll st2 newSk bindings with
    | .error err => .error err
    | .ok st3 =>
      match evalStmtsWithScopeStack n st3 newSk stmts with
      | .error err => .error (.EvalStmtsWithScopeStackFailed err)
      | .ok r => .ok r

/-- `eval/mod.rs::eval_stmts_with_scope_stack`: runs the statements in
order; the first non-`None` escape ends the loop. -/
def evalStmtsWithScopeStack (fuel : Nat) (st : Store) (sk : List Nat)
    (stmts : List Stmt) : Except Error (Escape × Store) :=
  match fuel with
  | 0 => .error (.Dev "out of fuel")
  | n + 1 =>
    match stmts with
    | [] => .ok (.none, st)
    | s :: rest =>
      match evalStmt n st sk s with
      | .error err => .error (.EvalStmtFailed err)
      | .ok (esc, st2) =>
        match esc with
        | .none => evalStmtsWithScopeStack n st2 sk rest
        | _ => .ok (esc, st2)

end

/-- `eval/mod.rs::eval_prog`: attaches the `(0, 0)` location to the
global bindings, evaluates the program's statements, and maps an
escaping `Break`/`Continue`/`Return` to the corresponding
outside-of-context error at the escape's captured location.  The final
store is returned on success (the source returns `Ok(())` and leaves
the state in `&mut scopes`). -/
def evalProg (fuel : Nat) (st : Store) (sk : List Nat)
    (globalBindings : List (RawExpr × SourcedValue)) (stmts : List Stmt) :
    Except Error Store :=
  let bindings := globalBindings.map (fun p => (Expr.mk p.1 (0, 0), p.2))
  match evalStmts fuel st sk bindings stmts with
  | .error err => .error (.EvalStmtsFailed err)
  | .ok (esc, st2) =>
    match esc with
    | .none => .ok st2
    | .brk (line, col) => .error (.AtLoc .BreakOutsideLoop line col)
    | .cont (line, col) => .error (.AtLoc .ContinueOutsideLoop line col)
    | .ret _ (line, col) => .error (.AtLoc .ReturnOutsideFunction line col)

end SeedVm

-- @@DEFS@@

-- ===== THEOREMS =====

namespace SeedVal

/-- Claim C1, counterexample: the `Mod` arm of `apply_binary_operation`
uses Rust's unchecked `%`, so evaluating `1 % 0` aborts the evaluator
with a runtime panic (and `i64::MIN % -1` likewise), instead of being
total as the claim states. -/
theorem c1_counterexample :
    applyBinaryOperation 0 .mod (1, 5) (.int 1) (.int 0)
        = .panic "attempt to calculate the remainder with a divisor of zero"
      ∧ applyBinaryOperation 0 .mod (1, 5) (.int i64Min) (.int (-1))
        = .panic "attempt to calculate the remainder with overflow" := by
  constructor
  · rfl
  · show applyBinaryOperation 0 .mod (1, 5) (.int (-(2 ^ 63))) (.int (-1)) = _
    simp [applyBinaryOperation, i64Min]

/-- Claim C1 (amended): for i64 operands, `a % b` yields the signed
(truncated) remainder whenever `b ≠ 0` and `(a, b) ≠ (i64::MIN, -1)`,
and panics in those two excluded cases; `a / b` with `b = 0` yields the
`IntOverflow` error at the operator's location rather than any other
failure. -/
theorem c1_theorem (fresh : Nat) (loc : Nat × Nat) (a b : Int)
    (ha : InI64 a) (hb : InI64 b) :
    (b ≠ 0 → ¬(a = i64Min ∧ b = -1) →
      applyBinaryOperation fresh .mod loc (.int a) (.int b)
        = .ok (.int (Int.tmod a b)))
    ∧ applyBinaryOperation fresh .div loc (.int a) (.int 0)
        = .err (.AtLoc (.IntOverflow .div a 0) loc.1 loc.2) := by
  constructor
  · intro hb0 hmin
    simp [applyBinaryOperation, hb0, hmin]
  · simp [applyBinaryOperation, checkedDiv]

/-- Witness for `c1_theorem` at `a = 7`, `b = 3`. -/
theorem c1_witness :
    applyBinaryOperation 0 .mod (2, 4) (.int 7) (.int 3)
        = .ok (.int (Int.tmod 7 3))
      ∧ applyBinaryOperation 0 .div (2, 4) (.int 7) (.int 0)
        = .err (.AtLoc (.IntOverflow .div 7 0) 2 4) := by
  have h := c1_theorem 0 (2, 4) 7 3 (by decide) (by decide)
  exact ⟨h.1 (by decide) (by decide), h.2⟩

/-- Claim C2: for i64 operands `i` and `j`, `i + j` yields the
`IntOverflow` error (at the operator's location) iff the mathematical
sum lies outside `[-2^63, 2^63 - 1]`, and otherwise yields `Int (i + j)`. -/
theorem c2_theorem (fresh : Nat) (loc : Nat × Nat) (i j : Int)
    (hi : InI64 i) (hj : InI64 j) :
    (applyBinaryOperation fresh .sum loc (.int i) (.int j)
        = .err (.AtLoc (.IntOverflow .sum i j) loc.1 loc.2)
      ↔ ¬ InI64 (i + j))
    ∧ (InI64 (i + j) →
        applyBinaryOperation fresh .sum loc (.int i) (.int j)
          = .ok (.int (i + j))) := by
  by_cases h : InI64 (i + j)
  · constructor
    · constructor
      · intro habs
        have : InI64 (i + j) := h
        simp [applyBinaryOperation, checkedAdd, InI64] at habs
        rcases this with ⟨h1, h2⟩
        simp [h1, h2] at habs
      · intro habs
        exact absurd h habs
    · intro _
      rcases h with ⟨h1, h2⟩
      simp [applyBinaryOperation, checkedAdd, h1, h2]
  · constructor
    · constructor
      · intro _
        exact h
      · intro _
        have hcond : ¬(i64Min ≤ i + j ∧ i + j ≤ i64Max) := h
        simp [applyBinaryOperation, checkedAdd, hcond]
    · intro habs
      exact absurd habs h

/-- Witness for `c2_theorem`: `2^62 + 2^62` overflows and
`1 + 2` evaluates to `3`. -/
theorem c2_witness :
    applyBinaryOperation 0 .sum (1, 1) (.int (2 ^ 62)) (.int (2 ^ 62))
        = .err (.AtLoc (.IntOverflow .sum (2 ^ 62) (2 ^ 62)) 1 1)
      ∧ applyBinaryOperation 0 .sum (1, 1) (.int 1) (.int 2)
        = .ok (.int (1 + 2)) := by
  constructor
  · exact (c2_theorem 0 (1, 1) (2 ^ 62) (2 ^ 62) (by decide)
      (by decide)).1.mpr (by decide)
  · exact (c2_theorem 0 (1, 1) 1 2 (by decide) (by decide)).2 (by decide)

end SeedVal
namespace SeedVal

/-- `reIdItems` preserves the length of the element list. -/
theorem reIdItems_length (off : Nat) (xs : List (Value × Option Value)) :
    (reIdItems off xs).length = xs.length := by
  induction xs with
  | nil => simp [reIdItems]
  | cons p rest ih =>
    obtain ⟨v, s⟩ := p
    simp [reIdItems, ih]

/-- `reIdProps` preserves the length of the property list. -/
theorem reIdProps_length (off : Nat)
    (xs : List (String × Value × Option Value)) :
    (reIdProps off xs).length = xs.length := by
  induction xs with
  | nil => simp [reIdProps]
  | cons p rest ih =>
    obtain ⟨k, v, s⟩ := p
    simp [reIdProps, ih]

/-- `reIdProps` preserves keys and order, so a `BTreeMap` lookup on the
renamed object is the renamed lookup. -/
theorem propsGet_reIdProps (off : Nat)
    (xs : List (String × Value × Option Value)) (k : String) :
    propsGet (reIdProps off xs) k
      = Option.map (fun p => (reId off p.1, reIdSource off p.2))
          (propsGet xs k) := by
  induction xs with
  | nil => simp [reIdProps, propsGet]
  | cons p rest ih =>
    obtain ⟨k2, v, s⟩ := p
    by_cases h : k2 = k
    · simp [reIdProps, propsGet, h]
    · simp [reIdProps, propsGet, h, ih]

/-- Under the `BTreeMap` key invariant, looking up the key of a stored
property returns exactly that property's value. -/
theorem propsGet_of_mem (xs : List (String × Value × Option Value))
    (k : String) (x : Value × Option Value)
    (hs : keysSorted xs = true) (hm : (k, x) ∈ xs) :
    propsGet xs k = some x := by
  induction xs with
  | nil => cases hm
  | cons p rest ih =>
    obtain ⟨k0, x0⟩ := p
    have hs2 : (rest.all fun q => decide (k0 < q.1)) = true
        ∧ keysSorted rest = true := by
      simpa [keysSorted, Bool.and_eq_true] using hs
    rcases List.mem_cons.mp hm with hh | ht
    · injection hh with h1 h2
      subst h1; subst h2
      simp [propsGet]
    · have hlt : k0 < k := by
        have := List.all_eq_true.mp hs2.1 (k, x) ht
        simpa using this
      have hne : ¬(k0 = k) := fun h => absurd (h ▸ hlt) (lt_irrefl k)
      simp [propsGet, hne]
      exact ih hs2.2 ht

/-- Members of a `funcFree` list of elements are `funcFree`. -/
theorem funcFreeItems_mem {xs : List (Value × Option Value)}
    (h : funcFreeItems xs = true) {p : Value × Option Value} (hp : p ∈ xs) :
    funcFree p.1 = true := by
  induction xs with
  | nil => cases hp
  | cons q rest ih =>
    obtain ⟨v, s⟩ := q
    have h2 : funcFree v = true ∧ funcFreeItems rest = true := by
      simpa [funcFreeItems, Bool.and_eq_true] using h
    rcases List.mem_cons.mp hp with hh | ht
    · subst hh; exact h2.1
    · exact ih h2.2 ht

/-- Values of a `funcFree` property list are `funcFree`. -/
theorem funcFreeProps_mem {xs : List (String × Value × Option Value)}
    (h : funcFreeProps xs = true) {p : String × Value × Option Value}
    (hp : p ∈ xs) : funcFree p.2.1 = true := by
  induction xs with
  | nil => cases hp
  | cons q rest ih =>
    obtain ⟨k, v, s⟩ := q
    have h2 : funcFree v = true ∧ funcFreeProps rest = true := by
      simpa [funcFreeProps, Bool.and_eq_true] using h
    rcases List.mem_cons.mp hp with hh | ht
    · subst hh; exact h2.1
    · exact ih h2.2 ht

/-- Members of a `sortedObjs` list of elements are `sortedObjs`. -/
theorem sortedObjsItems_mem {xs : List (Value × Option Value)}
    (h : sortedObjsItems xs = true) {p : Value × Option Value}
    (hp : p ∈ xs) : sortedObjs p.1 = true := by
  induction xs with
  | nil => cases hp
  | cons q rest ih =>
    obtain ⟨v, s⟩ := q
    have h2 : sortedObjs v = true ∧ sortedObjsItems rest = true := by
      simpa [sortedObjsItems, Bool.and_eq_true] using h
    rcases List.mem_cons.mp hp with hh | ht
    · subst hh; exact h2.1
    · exact ih h2.2 ht

/-- Values of a `sortedObjs` property list are `sortedObjs`. -/
theorem sortedObjsProps_mem {xs : List (String × Value × Option Value)}
    (h : sortedObjsProps xs = true) {p : String × Value × Option Value}
    (hp : p ∈ xs) : sortedObjs p.2.1 = true := by
  induction xs with
  | nil => cases hp
  | cons q rest ih =>
    obtain ⟨k, v, s⟩ := q
    have h2 : sortedObjs v = true ∧ sortedObjsProps rest = true := by
      simpa [sortedObjsProps, Bool.and_eq_true] using h
    rcases List.mem_cons.mp hp with hh | ht
    · subst hh; exact h2.1
    · exact ih h2.2 ht

/-- The element loop of `eq` succeeds on a list and its handle-renaming
when every element compares equal to its own renaming. -/
theorem eqItems_pointwise (off : Nat) (xs : List (Value × Option Value))
    (h : ∀ p ∈ xs, eq p.1 (reId off p.1) = some true) :
    eqItems xs (reIdItems off xs) = some true := by
  induction xs with
  | nil => simp [eqItems, reIdItems]
  | cons p rest ih =>
    obtain ⟨v, s⟩ := p
    have hv : eq v (reId off v) = some true := h (v, s) (List.mem_cons_self ..)
    have hrest := ih (fun q hq => h q (List.mem_cons_of_mem _ hq))
    simp [reIdItems, eqItems, hv, hrest]

/-- The key loop of `eq` succeeds whenever every left property's key can
be looked up on the right with an equal value. -/
theorem eqProps_lookup (xs ys : List (String × Value × Option Value))
    (h : ∀ p ∈ xs, ∃ w, propsGet ys p.1 = some w
      ∧ eq p.2.1 w.1 = some true) :
    eqProps xs ys = some true := by
  induction xs with
  | nil => simp [eqProps]
  | cons p rest ih =>
    obtain ⟨k, x⟩ := p
    obtain ⟨w, hw, heq⟩ := h (k, x) (List.mem_cons_self ..)
    have hrest := ih (fun q hq => h q (List.mem_cons_of_mem _ hq))
    simp [eqProps, hw, heq, hrest]

/-- Core of claim C3: deep structural equality accepts a function-free,
key-sorted value compared with any handle-renaming of itself. -/
theorem eq_reId (off : Nat) : ∀ (n : Nat) (v : Value), sizeOf v ≤ n →
    funcFree v = true → sortedObjs v = true →
    eq v (reId off v) = some true := by
  intro n
  induction n with
  | zero =>
    intro v hsz
    exfalso
    cases v <;> simp at hsz
  | succ n ih =>
    intro v hsz hff hso
    cases v with
    | null => simp [eq, reId]
    | bool b => simp [eq, reId]
    | int m => simp [eq, reId]
    | str s => simp [eq, reId]
    | builtinFunc nm => simp [funcFree] at hff
    | func id nm => simp [funcFree] at hff
    | list id xs =>
      have hitems : funcFreeItems xs = true := by
        simpa [funcFree] using hff
      have hsitems : sortedObjsItems xs = true := by
        simpa [sortedObjs] using hso
      have hpt : ∀ p ∈ xs, eq p.1 (reId off p.1) = some true := by
        intro p hp
        have hszp : sizeOf p ≤ sizeOf xs := le_of_lt (List.sizeOf_lt_of_mem hp)
        have hszv : sizeOf p.1 ≤ n := by
          obtain ⟨v1, s1⟩ := p
          simp at hsz hszp ⊢
          omega
        exact ih p.1 hszv (funcFreeItems_mem hitems hp)
          (sortedObjsItems_mem hsitems hp)
      show eq (.list id xs) (.list (id + off) (reIdItems off xs)) = some true
      by_cases hid : (id == id + off) = true
      · simp [eq, hid]
      · have hb : (id == id + off) = false := by
          simpa using hid
        simp [eq, hb, reIdItems_length, eqItems_pointwise off xs hpt]
    | object id xs =>
      have hprops : funcFreeProps xs = true := by
        simpa [funcFree] using hff
      have hsorted : keysSorted xs = true ∧ sortedObjsProps xs = true := by
        simpa [sortedObjs, Bool.and_eq_true] using hso
      have hlook : ∀ p ∈ xs, ∃ w,
          propsGet (reIdProps off xs) p.1 = some w
            ∧ eq p.2.1 w.1 = some true := by
        intro p hp
        obtain ⟨k, x⟩ := p
        refine ⟨(reId off x.1, reIdSource off x.2), ?_, ?_⟩
        · rw [propsGet_reIdProps, propsGet_of_mem xs k x hsorted.1 hp]
          rfl
        · have hszv : sizeOf x.1 ≤ n := by
            have hszp : sizeOf (k, x) ≤ sizeOf xs :=
              le_of_lt (List.sizeOf_lt_of_mem hp)
            obtain ⟨v1, s1⟩ := x
            simp at hsz hszp ⊢
            omega
          exact ih x.1 hszv (funcFreeProps_mem hprops hp)
            (sortedObjsProps_mem hsorted.2 hp)
      show eq (.object id xs) (.object (id + off) (reIdProps off xs))
        = some true
      by_cases hid : (id == id + off) = true
      · simp [eq, hid]
      · have hb : (id == id + off) = false := by
          simpa using hid
        simp [eq, hb, reIdProps_length,
          eqProps_lookup xs (reIdProps off xs) hlook]

end SeedVal

namespace SeedVal

/-- Claim C3, counterexample: `eq` has no case for two function values
(they fall through to `_ => None`), so comparing a function value with
itself — even the very same handle — yields the `InvalidOpTypes` error
instead of `Bool(true)`.  This refutes the claim for expressions of
function type. -/
theorem c3_counterexample :
    applyBinaryOperation 0 .eq (1, 3) (.func 7 none) (.func 7 none)
        = .err (.AtLoc (.InvalidOpTypes .eq (.func 7 none) (.func 7 none))
            1 3)
      ∧ applyBinaryOperation 0 .ne (1, 3) (.builtinFunc "print")
            (.builtinFunc "print")
        = .err (.AtLoc (.InvalidOpTypes .ne (.builtinFunc "print")
            (.builtinFunc "print")) 1 3) := by
  exact ⟨rfl, rfl⟩

/-- Claim C3 (amended): for every closed side-effect-free expression
whose value contains no function values, `e == e` evaluates to
`Bool(true)` and `e != e` to `Bool(false)`.  The value of the second
evaluation of `e` is modelled as `reId off v`: structurally identical to
`v` with freshly allocated container handles; `sortedObjs` is the
`BTreeMap` key invariant that every evaluator-built object satisfies.
Expressions of function type are excluded (see the counterexample). -/
theorem c3_theorem (fresh : Nat) (opLoc : Nat × Nat) (off : Nat) (v : Value)
    (hff : funcFree v = true) (hso : sortedObjs v = true) :
    applyBinaryOperation fresh .eq opLoc v (reId off v) = .ok (.bool true)
      ∧ applyBinaryOperation fresh .ne opLoc v (reId off v)
        = .ok (.bool false) := by
  have h := eq_reId off (sizeOf v) v (le_refl _) hff hso
  constructor
  · simp [applyBinaryOperation, h]
  · simp [applyBinaryOperation, h]

/-- Witness for `c3_theorem` at the list value `[1, "h", {a: null}]`
compared with a renaming of itself by offset 5. -/
theorem c3_witness :
    applyBinaryOperation 0 .eq (1, 1)
        (.list 3 [(.int 1, none), (.str [104], none),
          (.object 4 [("a", .null, none)], none)])
        (reId 5 (.list 3 [(.int 1, none), (.str [104], none),
          (.object 4 [("a", .null, none)], none)]))
      = .ok (.bool true) := by
  exact (c3_theorem 0 (1, 1) 5
    (.list 3 [(.int 1, none), (.str [104], none),
      (.object 4 [("a", .null, none)], none)])
    (by decide) (by decide)).1

end SeedVal

namespace SeedVal

/-- `keysSorted` is the strict pairwise key ordering. -/
theorem keysSorted_iff (xs : List (String × Value × Option Value)) :
    keysSorted xs = true ↔ List.Pairwise (fun a b => a.1 < b.1) xs := by
  induction xs with
  | nil => simp [keysSorted]
  | cons p rest ih =>
    simp [keysSorted, List.pairwise_cons, List.all_eq_true, ih,
      Bool.and_eq_true, and_comm]

/-- Every member of `btreeInsert k v m` is the new binding or an old one. -/
theorem btreeInsert_mem (k : String) (v : Value × Option Value)
    (m : List (String × Value × Option Value))
    (q : String × Value × Option Value) (hq : q ∈ btreeInsert k v m) :
    q = (k, v) ∨ q ∈ m := by
  induction m with
  | nil => simpa [btreeInsert] using hq
  | cons p rest ih =>
    obtain ⟨k2, v2⟩ := p
    by_cases h1 : k < k2
    · simp [btreeInsert, h1] at hq
      rcases hq with h | h | h
      · exact Or.inl h
      · exact Or.inr (by simp [h])
      · exact Or.inr (List.mem_cons_of_mem _ h)
    · by_cases h2 : k = k2
      · subst h2
        simp [btreeInsert, h1] at hq
        rcases hq with h | h
        · exact Or.inl h
        · exact Or.inr (List.mem_cons_of_mem _ h)
      · simp [btreeInsert, h1, h2] at hq
        rcases hq with h | h
        · exact Or.inr (by simp [h])
        · rcases ih h with h3 | h3
          · exact Or.inl h3
          · exact Or.inr (List.mem_cons_of_mem _ h3)

/-- `BTreeMap::insert` preserves the strict key ordering. -/
theorem btreeInsert_keysSorted (k : String) (v : Value × Option Value)
    (m : List (String × Value × Option Value))
    (hs : keysSorted m = true) :
    keysSorted (btreeInsert k v m) = true := by
  rw [keysSorted_iff] at hs ⊢
  induction m with
  | nil => simp [btreeInsert]
  | cons p rest ih =>
    obtain ⟨k2, v2⟩ := p
    rw [List.pairwise_cons] at hs
    by_cases h1 : k < k2
    · have heq : btreeInsert k v ((k2, v2) :: rest)
          = (k, v) :: (k2, v2) :: rest := by
        simp [btreeInsert, h1]
      rw [heq]
      refine List.Pairwise.cons ?_ (List.Pairwise.cons hs.1 hs.2)
      intro q hq
      rcases List.mem_cons.mp hq with h | h
      · simpa [h] using h1
      · exact lt_trans h1 (hs.1 q h)
    · by_cases h2 : k = k2
      · have heq : btreeInsert k v ((k2, v2) :: rest) = (k, v) :: rest := by
          simp [btreeInsert, h1, h2]
        rw [heq]
        refine List.Pairwise.cons ?_ hs.2
        intro q hq
        simpa [h2] using hs.1 q hq
      · have heq : btreeInsert k v ((k2, v2) :: rest)
            = (k2, v2) :: btreeInsert k v rest := by
          simp [btreeInsert, h1, h2]
        rw [heq]
        refine List.Pairwise.cons ?_ (ih hs.2)
        intro q hq
        rcases btreeInsert_mem k v rest q hq with h | h
        · have hk2k : k2 < k := by
            rcases lt_trichotomy k k2 with h3 | h3 | h3
            · exact absurd h3 h1
            · exact absurd h3 h2
            · exact h3
          simpa [h] using hk2k
        · exact hs.1 q h

/-- Objects built by repeated `BTreeMap::insert` satisfy the strict key
ordering. -/
theorem btreeFromList_keysSorted
    (kvs : List (String × Value × Option Value)) :
    keysSorted (btreeFromList kvs) = true := by
  have hgen : ∀ (l : List (String × Value × Option Value))
      (m : List (String × Value × Option Value)), keysSorted m = true →
      keysSorted (l.foldl (fun m2 p => btreeInsert p.1 p.2 m2) m) = true := by
    intro l
    induction l with
    | nil => intro m hm; simpa using hm
    | cons p rest ih =>
      intro m hm
      exact ih _ (btreeInsert_keysSorted p.1 p.2 m hm)
  exact hgen kvs [] rfl

/-- Claim C6: object keys are enumerated in sorted order everywhere
enumeration is observable.  Objects are built by `BTreeMap::insert`, so
their key list is strictly sorted; `value_to_pairs` (used by `for`
loops) enumerates the `(key, value)` pairs in exactly the stored order,
which is therefore key-sorted; and `render` (used by `print`) renders
the properties in the stored order, agreeing with the specification's
explicitly-sorting renderer `renderObjectSpec`. -/
theorem c6_theorem (id : Nat)
    (kvs props : List (String × Value × Option Value))
    (hs : keysSorted props = true) :
    keysSorted (btreeFromList kvs) = true
    ∧ valueToPairs (.object id props)
        = .ok (props.map (fun kp => ((.str (strToBytes kp.1), none), kp.2)))
    ∧ List.Pairwise (fun a b => a.1 < b.1) props
    ∧ render (.object id props, none) = renderObjectSpec props := by
  refine ⟨btreeFromList_keysSorted kvs, rfl, (keysSorted_iff props).mp hs, ?_⟩
  have hsorted : List.Sorted (fun a b =>
      (a : String × Value × Option Value).1 ≤ b.1) props :=
    ((keysSorted_iff props).mp hs).imp (fun h => le_of_lt h)
  unfold renderObjectSpec
  rw [List.Sorted.insertionSort_eq hsorted]
  simp [render]

/-- Witness for `c6_theorem` on the insertion sequence
`{b: 2, a: 1}` and the stored object `{a: 1, b: 2}`. -/
theorem c6_witness :
    keysSorted (btreeFromList
        [("b", .int 2, none), ("a", .int 1, none)]) = true
    ∧ valueToPairs (.object 0 [("a", .int 1, none), ("b", .int 2, none)])
        = .ok ([("a", Value.int 1, (none : Option Value)),
              ("b", .int 2, none)].map
            (fun kp => ((.str (strToBytes kp.1), none), kp.2)))
    ∧ List.Pairwise (fun a b => a.1 < b.1)
        [("a", Value.int 1, (none : Option Value)), ("b", .int 2, none)]
    ∧ render (.object 0 [("a", .int 1, none), ("b", .int 2, none)], none)
        = renderObjectSpec [("a", .int 1, none), ("b", .int 2, none)] :=
  c6_theorem 0 [("b", .int 2, none), ("a", .int 1, none)]
    [("a", .int 1, none), ("b", .int 2, none)] (by
      simp [keysSorted]
      decide)

/-- Claim C8 (amended): for every string value whose bytes are valid
UTF-8, the type-namespace call `s.len()` succeeds and returns its byte
count as an `Int`; `assert_str` re-validates the bytes, so a string
value holding invalid UTF-8 fails instead (see the counterexample). -/
theorem c8_theorem (s : List Nat) (src : Option Value) (cs : List Char)
    (hvalid : utf8Decode s = some cs) :
    strLen (some (.str s, src)) [] = .ok (.int s.length, none) := by
  simp [strLen, assertArgs, assertThis, assertStr, hvalid]

/-- Claim C8, counterexample: a string value holding the single
(non-UTF-8) byte `0xFF` — constructible in the language by byte-indexing
a multi-byte string — makes `s.len()` fail with a `BuiltinFuncErr`
rather than succeed as the claim states. -/
theorem c8_counterexample :
    strLen (some (.str [255], none)) []
      = .error (.AssertStrFailed (.BuiltinFuncErr
          "couldn't convert `this` string to UTF-8")) := rfl

/-- Witness for `c8_theorem` on the two-character, three-byte string
`"hé"`. -/
theorem c8_witness :
    strLen (some (.str [104, 195, 169], none)) []
      = .ok (.int (List.length [104, 195, 169]), none) :=
  c8_theorem [104, 195, 169] none [Char.ofNat 104, Char.ofNat 233]
    (by decide)

/-- Claim C10: every successful `print` call returns the null value, and
a call with a number of arguments other than one fails with the
`BuiltinFuncErr` produced by `assert_args` (wrapped in its
`AssertArgsFailed` context). -/
theorem c10_theorem (this : Option SourcedValue)
    (args : List SourcedValue) :
    (∀ v out, print this args = .ok (v, out) → v = (.null, none))
    ∧ (args.length ≠ 1 →
        print this args = .error (.AssertArgsFailed (.BuiltinFuncErr
          (argsMismatchMsg "print" 1 args.length)))) := by
  constructor
  · intro v out h
    unfold print at h
    split at h
    · exact absurd h (by simp)
    · split at h
      · exact absurd h (by simp)
      · split at h
        · split at h
          · exact absurd h (by simp)
          · rw [Except.ok.injEq] at h
            rw [Prod.mk.injEq] at h
            exact h.1.symm
        · exact absurd h (by simp)
  · intro hlen
    unfold print assertArgs
    simp [hlen]

/-- Witness for `c10_theorem`: a zero-argument call fails with the
`assert_args` error. -/
theorem c10_witness :
    print none []
      = .error (.AssertArgsFailed (.BuiltinFuncErr
          (argsMismatchMsg "print" 1
            (List.length ([] : List SourcedValue))))) :=
  (c10_theorem none []).2 (by decide)

end SeedVal

namespace SeedScope

/-- A successful cell lookup is unchanged by extending the heap. -/
theorem lookupCells_append_left {cells : List (Nat × Value)} {a : Nat}
    {v0 : Value} (hlk : lookupCells cells a = some v0)
    (more : List (Nat × Value)) :
    lookupCells (cells ++ more) a = some v0 := by
  induction cells with
  | nil => simp [lookupCells] at hlk
  | cons c rest ih =>
    obtain ⟨a2, w⟩ := c
    by_cases h : a2 = a
    · simpa [lookupCells, h] using hlk
    · simp [lookupCells, h] at hlk ⊢
      exact ih hlk

/-- A successful cell lookup exhibits a member cell. -/
theorem lookupCells_mem {cells : List (Nat × Value)} {a : Nat}
    {v0 : Value} (hlk : lookupCells cells a = some v0) :
    (a, v0) ∈ cells := by
  induction cells with
  | nil => simp [lookupCells] at hlk
  | cons c rest ih =>
    obtain ⟨a2, w⟩ := c
    by_cases h : a2 = a
    · subst h
      simp [lookupCells] at hlk
      simp [hlk]
    · simp [lookupCells, h] at hlk
      exact List.mem_cons_of_mem _ (ih hlk)

/-- Looking up a freshly appended cell whose address is new. -/
theorem lookupCells_append_fresh {cells : List (Nat × Value)} {a : Nat}
    (val : Value) (hfresh : ∀ p ∈ cells, p.1 ≠ a) :
    lookupCells (cells ++ [(a, val)]) a = some val := by
  induction cells with
  | nil => simp [lookupCells]
  | cons c rest ih =>
    obtain ⟨a2, w⟩ := c
    have hne : a2 ≠ a := hfresh (a2, w) (List.mem_cons_self ..)
    simp [lookupCells, hne]
    exact ih (fun p hp => hfresh p (List.mem_cons_of_mem _ hp))

/-- Updating one cell leaves lookups at other addresses unchanged. -/
theorem lookupCells_update_ne {cells : List (Nat × Value)} {a b : Nat}
    (w : Value) (hne : a ≠ b) :
    lookupCells (cells.map (fun c => if c.1 = b then (c.1, w) else c)) a
      = lookupCells cells a := by
  induction cells with
  | nil => simp [lookupCells]
  | cons c rest ih =>
    obtain ⟨a2, v2⟩ := c
    simp only [List.map_cons]
    by_cases h : a2 = b
    · rw [if_pos (by simpa using h)]
      have h2 : a2 ≠ a := by omega
      simp [lookupCells, h2, ih]
    · rw [if_neg (by simpa using h)]
      by_cases h3 : a2 = a
      · simp [lookupCells, h3]
      · simp [lookupCells, h3, ih]

/-- `assign` skips the frames that do not contain the name. -/
theorem assign_append_skip (h : Heap) (pre rest : ScopeStack)
    (name : String) (v : ValRefWithSource)
    (hpre : ∀ g ∈ pre, scopeContains g name = false) :
    assign h (pre ++ rest) name v
      = ((assign h rest name v).1,
          pre ++ (assign h rest name v).2.1,
          (assign h rest name v).2.2) := by
  induction pre with
  | nil => simp
  | cons g pres ih =>
    have hg : scopeContains g name = false :=
      hpre g (List.mem_cons_self ..)
    have hrest := ih (fun g2 hg2 => hpre g2 (List.mem_cons_of_mem _ hg2))
    simp [assign, hg, hrest]

/-- Claim C4 (amended): `assign` writes through the `copy` policy of
`scope.rs`, where only lists and objects are compound.  Writing into the
innermost frame containing the name: a list or object value is stored as
the same cell handle with the heap unchanged (so mutations through any
prior alias of the cell are observable through the new binding and vice
versa), while every other value — null, bool, int, string, and also any
function value — is cloned into a freshly allocated cell, after which
overwriting either cell's contents is not observable through the other
binding. -/
theorem c4_theorem (h : Heap) (pre post : ScopeStack) (f : Scope)
    (name : String) (v : ValRefWithSource) (val : Value)
    (hwf : Heap.Wf h)
    (hlk : h.lookup v.v = some val)
    (hpre : ∀ g ∈ pre, scopeContains g name = false)
    (hf : scopeContains f name = true) :
    (isCompoundType val = true →
      assign h (pre ++ f :: post) name v
        = (true, pre ++ scopeSet f name v :: post, h))
    ∧ (isCompoundType val = false →
        assign h (pre ++ f :: post) name v
          = (true, pre ++ scopeSet f name ⟨h.next, v.source⟩ :: post,
              ⟨h.cells ++ [(h.next, val)], h.next + 1⟩)
        ∧ h.next ≠ v.v
        ∧ (∀ w, (Heap.update ⟨h.cells ++ [(h.next, val)], h.next + 1⟩
              h.next w).lookup v.v = some val)
        ∧ (∀ w, (Heap.update ⟨h.cells ++ [(h.next, val)], h.next + 1⟩
              v.v w).lookup h.next = some val)) := by
  have hvlt : v.v < h.next := hwf (v.v, val) (lookupCells_mem hlk)
  have hne : h.next ≠ v.v := fun heq => absurd (heq ▸ hvlt) (lt_irrefl _)
  have hskip := assign_append_skip h pre (f :: post) name v hpre
  have hlk2 : lookupCells h.cells v.v = some val := hlk
  constructor
  · intro hcomp
    rw [hskip]
    simp [assign, hf, copy, Heap.lookup, hlk2, hcomp]
  · intro hcomp
    refine ⟨?_, hne, ?_, ?_⟩
    · rw [hskip]
      simp [assign, hf, copy, Heap.lookup, hlk2, hcomp, Heap.alloc]
    · intro w
      show lookupCells _ v.v = some val
      simp only [Heap.update]
      rw [lookupCells_update_ne w (show v.v ≠ h.next by omega)]
      exact lookupCells_append_left hlk2 _
    · intro w
      show lookupCells _ h.next = some val
      simp only [Heap.update]
      rw [lookupCells_update_ne w hne]
      exact lookupCells_append_fresh val
        (fun p hp => by
          have := hwf p hp
          omega)

/-- Witness for `c4_theorem`: assigning a list value into a one-frame
stack shares the handle; the heap is untouched. -/
theorem c4_witness :
    assign ⟨[(0, Value.list [])], 1⟩
        ([] ++ [("xs", ⟨0, none⟩, (1, 1))] :: []) "xs" ⟨0, none⟩
      = (true,
          [] ++ scopeSet [("xs", ⟨0, none⟩, (1, 1))] "xs" ⟨0, none⟩ :: [],
          ⟨[(0, Value.list [])], 1⟩) :=
  (c4_theorem ⟨[(0, Value.list [])], 1⟩ [] [] [("xs", ⟨0, none⟩, (1, 1))]
    "xs" ⟨0, none⟩ (Value.list [])
    (by intro p hp; simp at hp; simp [hp])
    (by simp [Heap.lookup, lookupCells])
    (by intro g hg; simp at hg)
    (by simp [scopeContains])).1 rfl

/-- Claim C4, counterexample: assigning a function value (`BuiltInFunc`)
does not share the handle — `copy` treats only lists and objects as
compound, so the stored reference is a freshly allocated cell (address
1), not the original cell (address 0), contradicting the claim that
func values are written by handle. -/
theorem c4_counterexample :
    assign ⟨[(0, Value.builtinFunc "print")], 1⟩
        [[("g", ⟨0, none⟩, (1, 1))]] "g" ⟨0, none⟩
      = (true, [[("g", ⟨1, none⟩, (1, 1))]],
          ⟨[(0, Value.builtinFunc "print"),
            (1, Value.builtinFunc "print")], 2⟩)
    ∧ (1 : Nat) ≠ 0 := by
  constructor
  · rfl
  · decide

end SeedScope

namespace SeedVm

/-- Claim C5, counterexample: in a scope where neither `f` nor `a` is
defined, evaluating `f(a)` reports that `a` is not defined — the
arguments were evaluated before the callee — whereas the claim's
callee-first ordering would produce the callee's `Undefined "f"` error
(wrapped in `EvalCallFuncFailed`). -/
theorem c5_counterexample :
    evalCall 9 ⟨[], [], [], [], 0⟩ [] (.mk (.varE "f") (1, 1))
        [.mk (.mk (.varE "a") (1, 3)) false] (1, 1)
      = .error (.EvalCallArgsFailed (.EvalListItemFailed
          (.AtLoc (.Undefined "a") 1 3)))
    ∧ evalExpr 9 ⟨[], [], [], [], 0⟩ [] (.mk (.varE "f") (1, 1))
      = .error (.AtLoc (.Undefined "f") 1 1)
    ∧ Error.EvalCallArgsFailed (.EvalListItemFailed
          (.AtLoc (.Undefined "a") 1 3))
      ≠ Error.EvalCallFuncFailed (.AtLoc (.Undefined "f") 1 1) := by
  refine ⟨rfl, rfl, by decide⟩

/-- Claim C5 (amended): in a call `f(a1, …, an)` the arguments are
evaluated first, in syntactic order, and only then the callee: an error
while evaluating the argument list surfaces as `EvalCallArgsFailed`
regardless of the callee; the callee's error surfaces as
`EvalCallFuncFailed` only once the whole argument list has evaluated
(against the state the arguments produced); and within the argument
list the first item's error wins regardless of the items after it. -/
theorem c5_theorem :
    (∀ (n : Nat) (st : Store) (sk : List Nat) (func : Expr)
        (args : List ListItem) (loc : Loc) (e : Error),
      evalListItems n st sk args = .error e →
      evalCall (n + 1) st sk func args loc
        = .error (.EvalCallArgsFailed e))
    ∧ (∀ (n : Nat) (st : Store) (sk : List Nat) (func : Expr)
        (args : List ListItem) (loc : Loc) (vals : List SourcedValue)
        (st2 : Store) (e : Error),
      evalListItems n st sk args = .ok (vals, st2) →
      evalExpr n st2 sk func = .error e →
      evalCall (n + 1) st sk func args loc
        = .error (.EvalCallFuncFailed e))
    ∧ (∀ (n : Nat) (st : Store) (sk : List Nat) (e2 : Expr) (sp : Bool)
        (rest : List ListItem) (err : Error),
      evalExpr n st sk e2 = .error err →
      evalListItems (n + 1) st sk (.mk e2 sp :: rest)
        = .error (.EvalListItemFailed err)) := by
  refine ⟨?_, ?_, ?_⟩
  · intro n st sk func args loc e h
    unfold evalCall
    rw [h]
  · intro n st sk func args loc vals st2 e h1 h2
    unfold evalCall
    rw [h1]
    dsimp only
    rw [h2]
  · intro n st sk e2 sp rest err h
    unfold evalListItems
    dsimp only
    rw [h]

/-- Witness for `c5_theorem`: the argument's `Undefined "a"` error is
what the call reports. -/
theorem c5_witness :
    evalListItems 8 ⟨[], [], [], [], 0⟩ []
        [.mk (.mk (.varE "a") (1, 3)) false]
      = .error (.EvalListItemFailed (.AtLoc (.Undefined "a") 1 3))
    ∧ evalCall 9 ⟨[], [], [], [], 0⟩ [] (.mk (.varE "f") (1, 1))
        [.mk (.mk (.varE "a") (1, 3)) false] (1, 1)
      = .error (.EvalCallArgsFailed (.EvalListItemFailed
          (.AtLoc (.Undefined "a") 1 3))) := by
  refine ⟨rfl, ?_⟩
  exact c5_theorem.1 8 ⟨[], [], [], [], 0⟩ [] (.mk (.varE "f") (1, 1))
    [.mk (.mk (.varE "a") (1, 3)) false] (1, 1) _ rfl

/-- Claim C7: whatever escape the top-level statement evaluation
produces, `eval_prog` maps it as specified: `None` to success, `Break`
to `BreakOutsideLoop`, `Continue` to `ContinueOutsideLoop` and `Return`
to `ReturnOutsideFunction`, each wrapped in `AtLoc` at the line and
column captured in the escape. -/
theorem c7_theorem (fuel : Nat) (st : Store) (sk : List Nat)
    (gb : List (RawExpr × SourcedValue)) (stmts : List Stmt)
    (esc : Escape) (st2 : Store)
    (h : evalStmts fuel st sk
        (gb.map (fun p => (Expr.mk p.1 (0, 0), p.2))) stmts
      = .ok (esc, st2)) :
    (esc = .none → evalProg fuel st sk gb stmts = .ok st2)
    ∧ (∀ line col, esc = .brk (line, col) →
        evalProg fuel st sk gb stmts
          = .error (.AtLoc .BreakOutsideLoop line col))
    ∧ (∀ line col, esc = .cont (line, col) →
        evalProg fuel st sk gb stmts
          = .error (.AtLoc .ContinueOutsideLoop line col))
    ∧ (∀ v line col, esc = .ret v (line, col) →
        evalProg fuel st sk gb stmts
          = .error (.AtLoc .ReturnOutsideFunction line col)) := by
  refine ⟨?_, ?_, ?_, ?_⟩
  · intro he
    subst he
    unfold evalProg
    dsimp only
    rw [h]
  · intro line col he
    subst he
    unfold evalProg
    dsimp only
    rw [h]
  · intro line col he
    subst he
    unfold evalProg
    dsimp only
    rw [h]
  · intro v line col he
    subst he
    unfold evalProg
    dsimp only
    rw [h]

/-- Witness for `c7_theorem`: a top-level `break` at `(3, 5)` becomes
`BreakOutsideLoop` at that location. -/
theorem c7_witness :
    evalStmts 9 ⟨[], [], [], [], 0⟩ []
        ((([] : List (RawExpr × SourcedValue))).map
          (fun p => (Expr.mk p.1 (0, 0), p.2)))
        [Stmt.breakS (3, 5)]
      = .ok (.brk (3, 5), ⟨[], [], [], [(0, [])], 1⟩)
    ∧ evalProg 9 ⟨[], [], [], [], 0⟩ [] [] [Stmt.breakS (3, 5)]
      = .error (.AtLoc .BreakOutsideLoop 3 5) := by
  refine ⟨rfl, ?_⟩
  exact (c7_theorem 9 ⟨[], [], [], [], 0⟩ [] [] [Stmt.breakS (3, 5)]
    (.brk (3, 5)) ⟨[], [], [], [(0, [])], 1⟩ rfl).2.1 3 5 rfl

end SeedVm

namespace SeedVm

/-- Replacing a present frame makes `getFrame` return the new frame. -/
theorem getFrame_setFrame_self (st : Store) (f : Nat) (fr0 fr2 : Frame)
    (h : st.getFrame f = some fr0) :
    (st.setFrame f fr2).getFrame f = some fr2 := by
  rcases st with ⟨ls, os, fs, frames, nx⟩
  unfold Store.getFrame Store.setFrame at *
  dsimp only at h ⊢
  induction frames with
  | nil => simp [List.find?] at h
  | cons p rest ih =>
    by_cases hp : p.1 = f
    · simp [hp]
    · have hb : ¬(p.1 == f) = true := by simpa using hp
      simp only [List.map_cons] at h ⊢
      rw [if_neg hb]
      rw [@List.find?_cons_of_neg _ (fun q => q.1 == f) p _ hb] at h ⊢
      exact ih h
/-- `setFrame` leaves the other store components untouched; reading a
list through it is unchanged. -/
theorem getList_setFrame (st : Store) (f : Nat) (fr : Frame) (r : Nat) :
    (st.setFrame f fr).getList r = st.getList r := rfl

/-- `allocList` leaves the frames untouched. -/
theorem getFrame_allocList (st : Store) (items : List SourcedValue)
    (f : Nat) :
    (st.allocList items).2.getFrame f = st.getFrame f := rfl

/-- A frame lookup that misses the prefix continues in the suffix. -/
theorem frameGet_append_none (fr fr2 : Frame) (x : String)
    (hx : frameGet fr x = Option.none) :
    frameGet (fr ++ fr2) x = frameGet fr2 x := by
  induction fr with
  | nil => rfl
  | cons e rest ih =>
    unfold frameGet at hx ⊢
    by_cases he : e.1 = x
    · simp [he] at hx
    · simp only [List.cons_append]
      rw [List.find?_cons_of_neg _ (by simpa using he)] at hx ⊢
      exact ih hx

/-- Reading a freshly appended list when its reference is new. -/
theorem getList_append_fresh (ls : List (Nat × List SourcedValue))
    (os : List (Nat × List (String × SourcedValue)))
    (fs : List (Nat × FuncData)) (frames : List (Nat × Frame)) (nx : Nat)
    (n2 : Nat) (es : List SourcedValue)
    (hfresh : ∀ p ∈ ls, p.1 ≠ n2) :
    Store.getList ⟨ls ++ [(n2, es)], os, fs, frames, nx⟩ n2 = some es := by
  unfold Store.getList
  dsimp only
  induction ls with
  | nil => simp [List.find?]
  | cons p rest ih =>
    have hne : p.1 ≠ n2 := hfresh p (List.mem_cons_self ..)
    simp only [List.cons_append, List.find?]
    rw [show (p.1 == n2) = false by simpa using hne]
    exact ih (fun q hq => hfresh q (List.mem_cons_of_mem _ hq))

end SeedVm

namespace SeedVm

/-- Claim C9: executing the declaration `[a, b, *rest] := xs` on a list
`xs = e0 :: e1 :: es` (so `|xs| ≥ 2`) succeeds, binding `a` to `xs[0]`,
`b` to `xs[1]` and `rest` to a freshly allocated list holding the suffix
`xs[2:]`; and in general a collect list-destructure requires
`lhs_len - 1 ≤ rhs_len`, failing with `ListCollectTooFew` otherwise. -/
theorem c9_theorem (st : Store) (f : Nat) (skTail : List Nat) (fr : Frame)
    (a b c : String) (la lb lc lhsLoc : Loc) (r : Nat)
    (src : Option Value) (e0 e1 : SourcedValue) (es : List SourcedValue)
    (hwf : ∀ p ∈ st.lists, p.1 ≠ st.next)
    (hfr : st.getFrame f = some fr)
    (hlist : st.getList r = some (e0 :: e1 :: es))
    (ha : frameGet fr a = Option.none) (hb : frameGet fr b = Option.none)
    (hc : frameGet fr c = Option.none)
    (hau : a ≠ "_") (hbu : b ≠ "_") (hcu : c ≠ "_")
    (hab : a ≠ b) (hac : a ≠ c) (hbc : b ≠ c) :
    (∃ st4,
      bind st (f :: skTail)
          (.mk (.listE [.mk (.mk (.varE a) la) false,
            .mk (.mk (.varE b) lb) false,
            .mk (.mk (.varE c) lc) false] true) lhsLoc)
          ⟨.list r, src⟩ .Declaration
        = .ok st4
      ∧ scopesGet st4 (f :: skTail) a = some e0
      ∧ scopesGet st4 (f :: skTail) b = some e1
      ∧ ∃ r2, scopesGet st4 (f :: skTail) c
            = some ⟨.list r2, Option.none⟩
          ∧ st4.getList r2 = some es)
    ∧ (∀ (items : List ListItem) (loc2 : Loc)
        (elems : List SourcedValue) (bt : BindType)
        (names : List String) (st0 : Store) (sk0 : List Nat),
      items.length - 1 > elems.length →
      bindList st0 sk0 names items true loc2 elems bt
        = .error (.AtLoc (.ListCollectTooFew items.length elems.length)
            loc2.1 loc2.2)) := by
  have hba : b ≠ a := Ne.symm hab
  have hca : c ≠ a := Ne.symm hac
  have hcb : c ≠ b := Ne.symm hbc
  constructor
  · -- abbreviations for the intermediate stores
    have hA : bindNext st (f :: skTail) [] (.mk (.varE a) la) e0
          .Declaration
        = .ok ([a], st.setFrame f (fr ++ [(a, e0, la)])) := by
      unfold bindNext bindNextName scopesDeclare
      simp [hau, hfr, ha, frameInsert]
    have hfr1 : (st.setFrame f (fr ++ [(a, e0, la)])).getFrame f
        = some (fr ++ [(a, e0, la)]) :=
      getFrame_setFrame_self st f fr _ hfr
    have hgb1 : frameGet (fr ++ [(a, e0, la)]) b = Option.none := by
      rw [frameGet_append_none fr _ b hb]
      simp [frameGet, List.find?, show (a == b) = false by simpa using hab]
    have hB : bindNext (st.setFrame f (fr ++ [(a, e0, la)])) (f :: skTail)
          [a] (.mk (.varE b) lb) e1 .Declaration
        = .ok ([b, a], (st.setFrame f (fr ++ [(a, e0, la)])).setFrame f
            (fr ++ [(a, e0, la), (b, e1, lb)])) := by
      unfold bindNext bindNextName scopesDeclare
      simp [hbu, hba, hfr1, hgb1, frameInsert]
    have hfr2 : ((st.setFrame f (fr ++ [(a, e0, la)])).setFrame f
          (fr ++ [(a, e0, la), (b, e1, lb)])).getFrame f
        = some (fr ++ [(a, e0, la), (b, e1, lb)]) :=
      getFrame_setFrame_self _ f _ _ hfr1
    have hgc2 : frameGet (fr ++ [(a, e0, la), (b, e1, lb)]) c
        = Option.none := by
      rw [frameGet_append_none fr _ c hc]
      simp [frameGet, List.find?, show (a == c) = false by simpa using hac,
        show (b == c) = false by simpa using hbc]
    -- names for the store after the second declare, and after the alloc
    generalize hST2 : (st.setFrame f (fr ++ [(a, e0, la)])).setFrame f
        (fr ++ [(a, e0, la), (b, e1, lb)]) = ST2 at hB hfr2
    have hfrA : (ST2.allocList es).2.getFrame f
        = some (fr ++ [(a, e0, la), (b, e1, lb)]) := by
      rw [getFrame_allocList]
      exact hfr2
    have hC : bindNext (ST2.allocList es).2 (f :: skTail) [b, a]
          (.mk (.varE c) lc)
          ⟨.list (ST2.allocList es).1, Option.none⟩ .Declaration
        = .ok ([c, b, a], (ST2.allocList es).2.setFrame f
            (fr ++ [(a, e0, la), (b, e1, lb),
              (c, ⟨.list (ST2.allocList es).1, Option.none⟩, lc)])) := by
      unfold bindNext bindNextName scopesDeclare
      simp [hcu, hca, hcb, hfrA, hgc2, frameInsert]
    have hbind : bind st (f :: skTail)
          (.mk (.listE [.mk (.mk (.varE a) la) false,
            .mk (.mk (.varE b) lb) false,
            .mk (.mk (.varE c) lc) false] true) lhsLoc)
          ⟨.list r, src⟩ .Declaration
        = .ok ((ST2.allocList es).2.setFrame f
            (fr ++ [(a, e0, la), (b, e1, lb),
              (c, ⟨.list (ST2.allocList es).1, Option.none⟩, lc)])) := by
      unfold bind bindNext
      simp only [hlist]
      unfold bindList
      simp only [List.length_cons, List.length_nil]
      rw [if_neg (by simp)]
      rw [if_neg (by simp)]
      simp only [bindListItems]
      simp only [show (0 + 1 + 1 + 1 : Nat) - 1 = 2 from rfl,
        show (0 : Nat) + 1 = 1 from rfl, show (0 : Nat) + 1 + 1 = 2 from rfl]
      simp only [Bool.false_eq_true, if_false,
        show ((0 : Nat) = 2) = False by simp,
        show ((1 : Nat) = 2) = False by simp, true_and, and_true, and_false,
        if_true, List.getD_cons_zero, List.getD_cons_succ,
        List.drop_succ_cons, List.drop_zero, ite_false, ite_true, false_and]
      rw [hA]
      dsimp only
      rw [hB]
      dsimp only
      rw [hC]
    refine ⟨_, hbind, ?_, ?_, ?_⟩
    · -- a reads back e0
      have hfr4 := getFrame_setFrame_self (ST2.allocList es).2 f _
        (fr ++ [(a, e0, la), (b, e1, lb),
          (c, ⟨.list (ST2.allocList es).1, Option.none⟩, lc)]) hfrA
      unfold scopesGet
      rw [hfr4]
      dsimp only
      have hga : frameGet (fr ++ [(a, e0, la), (b, e1, lb),
            (c, ⟨.list (ST2.allocList es).1, Option.none⟩, lc)]) a
          = some (e0, la) := by
        rw [frameGet_append_none fr _ a ha]
        simp [frameGet, List.find?]
      rw [hga]
    · -- b reads back e1
      have hfr4 := getFrame_setFrame_self (ST2.allocList es).2 f _
        (fr ++ [(a, e0, la), (b, e1, lb),
          (c, ⟨.list (ST2.allocList es).1, Option.none⟩, lc)]) hfrA
      unfold scopesGet
      rw [hfr4]
      dsimp only
      have hgb : frameGet (fr ++ [(a, e0, la), (b, e1, lb),
            (c, ⟨.list (ST2.allocList es).1, Option.none⟩, lc)]) b
          = some (e1, lb) := by
        rw [frameGet_append_none fr _ b hb]
        simp [frameGet, List.find?, show (a == b) = false by simpa using hab]
      rw [hgb]
    · -- rest reads back a fresh list holding the suffix
      refine ⟨(ST2.allocList es).1, ?_, ?_⟩
      · have hfr4 := getFrame_setFrame_self (ST2.allocList es).2 f _
          (fr ++ [(a, e0, la), (b, e1, lb),
            (c, ⟨.list (ST2.allocList es).1, Option.none⟩, lc)]) hfrA
        unfold scopesGet
        rw [hfr4]
        dsimp only
        have hgc : frameGet (fr ++ [(a, e0, la), (b, e1, lb),
              (c, ⟨.list (ST2.allocList es).1, Option.none⟩, lc)]) c
            = some (⟨.list (ST2.allocList es).1, Option.none⟩, lc) := by
          rw [frameGet_append_none fr _ c hc]
          simp [frameGet, List.find?,
            show (a == c) = false by simpa using hac,
            show (b == c) = false by simpa using hbc]
        rw [hgc]
      · subst hST2
        exact getList_append_fresh st.lists st.objects st.funcs _ _
          st.next es hwf
  · intro items loc2 elems bt names st0 sk0 hlen
    unfold bindList
    rw [if_pos ⟨rfl, hlen⟩]

/-- Witness for `c9_theorem`: `[a, b, *rest] := [1, 2, 3]` in a fresh
scope, and the `ListCollectTooFew` error for `[a, b, *rest] := []`. -/
theorem c9_witness :
    (∃ st4,
      bind ⟨[(0, [⟨.int 1, Option.none⟩, ⟨.int 2, Option.none⟩,
            ⟨.int 3, Option.none⟩])], [], [], [(1, [])], 2⟩ [1]
          (.mk (.listE [.mk (.mk (.varE "a") (1, 2)) false,
            .mk (.mk (.varE "b") (1, 5)) false,
            .mk (.mk (.varE "rest") (1, 9)) false] true) (1, 1))
          ⟨.list 0, Option.none⟩ .Declaration
        = .ok st4
      ∧ scopesGet st4 [1] "a" = some ⟨.int 1, Option.none⟩
      ∧ scopesGet st4 [1] "b" = some ⟨.int 2, Option.none⟩
      ∧ ∃ r2, scopesGet st4 [1] "rest" = some ⟨.list r2, Option.none⟩
          ∧ st4.getList r2 = some [⟨.int 3, Option.none⟩])
    ∧ bindList ⟨[(0, [⟨.int 1, Option.none⟩, ⟨.int 2, Option.none⟩,
            ⟨.int 3, Option.none⟩])], [], [], [(1, [])], 2⟩ [1] []
          [.mk (.mk (.varE "a") (1, 2)) false,
            .mk (.mk (.varE "b") (1, 5)) false,
            .mk (.mk (.varE "rest") (1, 9)) false] true (1, 1) []
          .Declaration
        = .error (.AtLoc (.ListCollectTooFew 3 0) 1 1) := by
  have h := c9_theorem
    ⟨[(0, [⟨.int 1, Option.none⟩, ⟨.int 2, Option.none⟩,
      ⟨.int 3, Option.none⟩])], [], [], [(1, [])], 2⟩ 1 [] []
    "a" "b" "rest" (1, 2) (1, 5) (1, 9) (1, 1) 0 Option.none
    ⟨.int 1, Option.none⟩ ⟨.int 2, Option.none⟩ [⟨.int 3, Option.none⟩]
    (by decide) rfl rfl rfl rfl rfl (by decide) (by decide) (by decide)
    (by decide) (by decide) (by decide)
  exact ⟨h.1, h.2 _ _ _ _ _ _ _ (by decide)⟩

end SeedVm

-- @@THMS@@
